import Mathlib

/-! Verification development for the inkress-sdk repository.

The subject is a payment-platform client SDK with two components:

* a JWT verifier (src/utils/jwt.ts): HS256/HS512 compact-JWT verification
  with base64url handling, a constant-time signature comparison, and
  temporal claim checks;
* a payment facade (src/dist/index.js): payment-URL construction with a
  base64-encoded JSON order token, option validation, a random id
  generator and a convenience JWT wrapper.

Strings are modelled as lists of unicode scalar characters and byte
buffers as lists of naturals below 256.  The HMAC primitive is the host
platform's (node:crypto or WebCrypto) and is therefore a parameter of the
embedding.  JavaScript JSON values are modelled by an inductive type in
which numbers are exact decimals, written m / 10 ^ e; object key lookup
takes the last binding, as JSON.parse does for duplicate keys. -/

namespace Inkress

/-! Section 1: generic helpers. -/

/-- Bitwise or of two naturals is zero exactly when both are zero. -/
theorem lor_eq_zero_iff (a b : Nat) : a ||| b = 0 ↔ a = 0 ∧ b = 0 := by
  constructor
  · intro h
    constructor
    · apply Nat.eq_of_testBit_eq
      intro i
      have h2 := congrArg (fun n => Nat.testBit n i) h
      simp only [Nat.testBit_or, Nat.zero_testBit, Bool.or_eq_false_iff] at h2
      simp [h2.1]
    · apply Nat.eq_of_testBit_eq
      intro i
      have h2 := congrArg (fun n => Nat.testBit n i) h
      simp only [Nat.testBit_or, Nat.zero_testBit, Bool.or_eq_false_iff] at h2
      simp [h2.2]
  · rintro ⟨rfl, rfl⟩; rfl

/-- Characters below the surrogate range survive the Char.ofNat round trip. -/
theorem toNat_ofNat_valid (n : Nat) (h : n < 55296) : (Char.ofNat n).toNat = n := by
  have hv : Nat.isValidChar n := Or.inl h
  simp [Char.ofNat, hv, Char.ofNatAux, Char.toNat, UInt32.toNat]

/-- Concatenation of the images of a list-valued function. -/
def concatMap (f : α → List β) : List α → List β
  | [] => []
  | x :: xs => f x ++ concatMap f xs

theorem concatMap_append (f : α → List β) (xs ys : List α) :
    concatMap f (xs ++ ys) = concatMap f xs ++ concatMap f ys := by
  induction xs with
  | nil => rfl
  | cons x xs ih => simp [concatMap, ih]

/-! Section 2: base64 and base64url.

The node backend of src/utils/jwt.ts produces base64url by encoding with
Buffer.toString applied with base64 and then substituting the characters
plus to minus and slash to underscore and deleting the padding; decoding
reverses the substitutions, restores padding and decodes.  The browser
backend does the same via btoa and atob.  Both are embedded here by a
byte-level base64 codec; atobChunks follows the strict atob behaviour of
rejecting characters outside the alphabet and misplaced padding. -/

/-- Character of the standard base64 alphabet for a 6-bit value. -/
def b64Char (n : Nat) : Char :=
  if n < 26 then Char.ofNat (65 + n)
  else if n < 52 then Char.ofNat (97 + (n - 26))
  else if n < 62 then Char.ofNat (48 + (n - 52))
  else if n = 62 then '+'
  else '/'

/-- Six-bit value of a standard base64 alphabet character. -/
def b64CharVal (c : Char) : Option Nat :=
  if 'A' ≤ c ∧ c ≤ 'Z' then some (c.toNat - 65)
  else if 'a' ≤ c ∧ c ≤ 'z' then some (c.toNat - 97 + 26)
  else if '0' ≤ c ∧ c ≤ '9' then some (c.toNat - 48 + 52)
  else if c = '+' then some 62
  else if c = '/' then some 63
  else none

theorem b64CharVal_b64Char : ∀ n < 64, b64CharVal (b64Char n) = some n := by decide

theorem b64Char_ne_eq : ∀ n < 64, b64Char n ≠ '=' := by decide

/-- Base64 encoding of a byte list, three bytes to four characters, with
padding, mirroring Buffer.toString applied with base64 and btoa. -/
def b64EncodeChunks : List Nat → List Char
  | a :: b :: c :: rest =>
      b64Char (a / 4) :: b64Char ((a % 4) * 16 + b / 16) ::
      b64Char ((b % 16) * 4 + c / 64) :: b64Char (c % 64) :: b64EncodeChunks rest
  | [a, b] => [b64Char (a / 4), b64Char ((a % 4) * 16 + b / 16), b64Char ((b % 16) * 4), '=']
  | [a] => [b64Char (a / 4), b64Char ((a % 4) * 16), '=', '=']
  | [] => []

/-- Base64 decoding of a character list in four-character chunks, as atob:
characters outside the alphabet and padding anywhere but at the very end
are rejected; leftover bits of a final partial chunk are discarded. -/
def atobChunks : List Char → Option (List Nat)
  | [] => some []
  | c1 :: c2 :: c3 :: c4 :: rest =>
    (b64CharVal c1).bind fun v1 =>
    (b64CharVal c2).bind fun v2 =>
    if c3 = '=' then
      if c4 = '=' ∧ rest = [] then some [v1 * 4 + v2 / 16] else none
    else
      (b64CharVal c3).bind fun v3 =>
      if c4 = '=' then
        if rest = [] then some [v1 * 4 + v2 / 16, (v2 % 16) * 16 + v3 / 4] else none
      else
        (b64CharVal c4).bind fun v4 =>
        (atobChunks rest).map fun bs =>
          (v1 * 4 + v2 / 16) :: ((v2 % 16) * 16 + v3 / 4) :: ((v3 % 4) * 64 + v4) :: bs
  | _ => none

/-- Decoding inverts encoding on byte lists. -/
theorem atobChunks_b64EncodeChunks :
    ∀ bs : List Nat, (∀ b ∈ bs, b < 256) → atobChunks (b64EncodeChunks bs) = some bs
  | [], _ => rfl
  | [a], h => by
    have ha : a < 256 := h a (by simp)
    simp only [b64EncodeChunks, atobChunks,
      b64CharVal_b64Char (a / 4) (by omega),
      b64CharVal_b64Char ((a % 4) * 16) (by omega)]
    simp
    omega
  | [a, b], h => by
    have ha : a < 256 := h a (by simp)
    have hb : b < 256 := h b (by simp)
    simp only [b64EncodeChunks, atobChunks,
      b64CharVal_b64Char (a / 4) (by omega),
      b64CharVal_b64Char ((a % 4) * 16 + b / 16) (by omega),
      b64CharVal_b64Char ((b % 16) * 4) (by omega)]
    simp [b64Char_ne_eq ((b % 16) * 4) (by omega)]
    omega
  | a :: b :: c :: rest, h => by
    have ha : a < 256 := h a (by simp)
    have hb : b < 256 := h b (by simp)
    have hc : c < 256 := h c (by simp)
    have ih := atobChunks_b64EncodeChunks rest (by
      intro x hx
      exact h x (by simp [hx]))
    simp only [b64EncodeChunks, atobChunks,
      b64CharVal_b64Char (a / 4) (by omega),
      b64CharVal_b64Char ((a % 4) * 16 + b / 16) (by omega),
      b64CharVal_b64Char ((b % 16) * 4 + c / 64) (by omega),
      b64CharVal_b64Char (c % 64) (by omega)]
    simp [b64Char_ne_eq ((b % 16) * 4 + c / 64) (by omega),
      b64Char_ne_eq (c % 64) (by omega), ih]
    omega

/-- Substitution applied after base64 encoding: plus to minus and slash to
underscore, as in bufferToBase64Url of src/utils/jwt.ts. -/
def urlifyChar (c : Char) : Char :=
  if c = '+' then '-' else if c = '/' then '_' else c

/-- Substitution applied before base64 decoding: minus to plus and
underscore to slash, as in base64UrlToBuffer of src/utils/jwt.ts. -/
def unUrlChar (c : Char) : Char :=
  if c = '-' then '+' else if c = '_' then '/' else c

/-- Base64url encoding of a byte buffer, as bufferToBase64Url in
src/utils/jwt.ts: base64, then the character substitutions, then deleting
every padding character. -/
def bufferToBase64Url (bytes : List Nat) : List Char :=
  ((b64EncodeChunks bytes).map urlifyChar).filter (fun c => c != '=')

/-- Base64url decoding to a byte buffer, as base64UrlToBuffer in
src/utils/jwt.ts: the reverse character substitutions, padding to a
multiple of four, then base64 decoding.  The strict atob behaviour of the
browser backend is modelled; the node backend's Buffer.from is lenient on
malformed input but agrees on every valid encoding. -/
def base64UrlToBuffer (s : List Char) : Option (List Nat) :=
  let b64 := s.map unUrlChar
  atobChunks (b64 ++ List.replicate ((4 - b64.length % 4) % 4) '=')

/-- Unpadded url-alphabet base64 encoding, chunk by chunk. -/
def b64UrlEncode : List Nat → List Char
  | a :: b :: c :: rest =>
      urlifyChar (b64Char (a / 4)) :: urlifyChar (b64Char ((a % 4) * 16 + b / 16)) ::
      urlifyChar (b64Char ((b % 16) * 4 + c / 64)) :: urlifyChar (b64Char (c % 64)) ::
      b64UrlEncode rest
  | [a, b] => [urlifyChar (b64Char (a / 4)), urlifyChar (b64Char ((a % 4) * 16 + b / 16)),
      urlifyChar (b64Char ((b % 16) * 4))]
  | [a] => [urlifyChar (b64Char (a / 4)), urlifyChar (b64Char ((a % 4) * 16))]
  | [] => []

theorem urlifyChar_b64Char_ne_eq (n : Nat) : urlifyChar (b64Char n) ≠ '=' := by
  by_cases h : n < 64
  · revert h
    revert n
    decide
  · have : b64Char n = '/' := by
      unfold b64Char
      rw [if_neg (by omega), if_neg (by omega), if_neg (by omega), if_neg (by omega)]
    rw [this]
    decide

theorem urlifyChar_b64Char_bne (n : Nat) : (urlifyChar (b64Char n) != '=') = true := by
  simp [urlifyChar_b64Char_ne_eq n]

/-- Filtering the padding out of the substituted base64 encoding yields the
direct unpadded url encoding. -/
theorem bufferToBase64Url_eq_b64UrlEncode :
    ∀ bs : List Nat, bufferToBase64Url bs = b64UrlEncode bs
  | [] => rfl
  | [a] => by
    simp only [bufferToBase64Url, b64EncodeChunks, b64UrlEncode, List.map_cons, List.map_nil,
      List.filter, urlifyChar_b64Char_bne]
    rfl
  | [a, b] => by
    simp only [bufferToBase64Url, b64EncodeChunks, b64UrlEncode, List.map_cons, List.map_nil,
      List.filter, urlifyChar_b64Char_bne]
    rfl
  | a :: b :: c :: rest => by
    have ih := bufferToBase64Url_eq_b64UrlEncode rest
    simp only [bufferToBase64Url, b64EncodeChunks, b64UrlEncode, List.map_cons, List.filter,
      urlifyChar_b64Char_bne] at *
    simp [ih]

theorem unUrlChar_urlifyChar_b64Char (n : Nat) (h : n < 64) :
    unUrlChar (urlifyChar (b64Char n)) = b64Char n := by
  revert h
  revert n
  decide

/-- Restoring the substituted characters and the padding recovers the
plain base64 encoding. -/
theorem unUrl_pad_b64UrlEncode :
    ∀ bs : List Nat, (∀ b ∈ bs, b < 256) →
      (b64UrlEncode bs).map unUrlChar ++
        List.replicate ((4 - (b64UrlEncode bs).length % 4) % 4) '=' = b64EncodeChunks bs
  | [], _ => rfl
  | [a], h => by
    have ha : a < 256 := h a (by simp)
    simp only [b64UrlEncode, b64EncodeChunks, List.map_cons, List.map_nil, List.length_cons,
      List.length_nil]
    rw [unUrlChar_urlifyChar_b64Char _ (by omega), unUrlChar_urlifyChar_b64Char _ (by omega)]
    rfl
  | [a, b], h => by
    have ha : a < 256 := h a (by simp)
    have hb : b < 256 := h b (by simp)
    simp only [b64UrlEncode, b64EncodeChunks, List.map_cons, List.map_nil, List.length_cons,
      List.length_nil]
    rw [unUrlChar_urlifyChar_b64Char _ (by omega), unUrlChar_urlifyChar_b64Char _ (by omega),
      unUrlChar_urlifyChar_b64Char _ (by omega)]
    rfl
  | a :: b :: c :: rest, h => by
    have ha : a < 256 := h a (by simp)
    have hb : b < 256 := h b (by simp)
    have hc : c < 256 := h c (by simp)
    have ih := unUrl_pad_b64UrlEncode rest (by
      intro x hx
      exact h x (by simp [hx]))
    simp only [b64UrlEncode, b64EncodeChunks, List.map_cons, List.length_cons]
    rw [unUrlChar_urlifyChar_b64Char _ (by omega), unUrlChar_urlifyChar_b64Char _ (by omega),
      unUrlChar_urlifyChar_b64Char _ (by omega), unUrlChar_urlifyChar_b64Char _ (by omega)]
    have hlen : (4 - ((b64UrlEncode rest).length + 1 + 1 + 1 + 1) % 4) % 4 =
        (4 - (b64UrlEncode rest).length % 4) % 4 := by omega
    simp only [List.cons_append]
    rw [hlen, ih]

/-- Base64url decoding inverts base64url encoding on byte buffers. -/
theorem base64UrlToBuffer_bufferToBase64Url (bs : List Nat) (h : ∀ b ∈ bs, b < 256) :
    base64UrlToBuffer (bufferToBase64Url bs) = some bs := by
  rw [bufferToBase64Url_eq_b64UrlEncode]
  unfold base64UrlToBuffer
  simp only [List.length_map]
  rw [show (b64UrlEncode bs).map unUrlChar ++
      List.replicate ((4 - (b64UrlEncode bs).length % 4) % 4) '=' = b64EncodeChunks bs from
      unUrl_pad_b64UrlEncode bs h]
  exact atobChunks_b64EncodeChunks bs h

/-! Section 3: UTF-8.

The JWT module converts between strings and byte buffers with
Buffer.from and TextEncoder (encoding) and buffer.toString and
TextDecoder (decoding); the facade's decodeB64JSON browser path uses the
decodeURIComponent-escape idiom.  Both directions of the standard UTF-8
coding are embedded; the lossy decoder substitutes U+FFFD for invalid
input as TextDecoder does, the strict decoder rejects it as
decodeURIComponent does. -/

/-- Unicode replacement character, produced by lossy UTF-8 decoding. -/
def repChar : Char := Char.ofNat 0xFFFD

/-- UTF-8 encoding of one unicode scalar value. -/
def utf8EncodeChar (c : Char) : List Nat :=
  let n := c.toNat
  if n < 0x80 then [n]
  else if n < 0x800 then [0xC0 + n / 64, 0x80 + n % 64]
  else if n < 0x10000 then [0xE0 + n / 4096, 0x80 + n / 64 % 64, 0x80 + n % 64]
  else [0xF0 + n / 262144, 0x80 + n / 4096 % 64, 0x80 + n / 64 % 64, 0x80 + n % 64]

/-- UTF-8 encoding of a string, character by character. -/
def utf8Encode (s : List Char) : List Nat := concatMap utf8EncodeChar s

/-- Lossy UTF-8 decoding: invalid sequences (stray continuations, overlong
forms, surrogates, out-of-range leads) produce the replacement character,
as TextDecoder and buffer.toString do.  Continuation bytes are read with
headD, whose default 0 falls outside every continuation range, so a
too-short tail is handled by the invalid branch. -/
def utf8DecodeLossy : List Nat → List Char
  | [] => []
  | b0 :: rest =>
    if b0 < 0x80 then Char.ofNat b0 :: utf8DecodeLossy rest
    else if b0 < 0xC2 then repChar :: utf8DecodeLossy rest
    else if b0 < 0xE0 then
      if 0x80 ≤ rest.headD 0 ∧ rest.headD 0 < 0xC0 then
        Char.ofNat ((b0 - 0xC0) * 64 + (rest.headD 0 - 0x80)) :: utf8DecodeLossy rest.tail
      else repChar :: utf8DecodeLossy rest
    else if b0 < 0xF0 then
      if (0x80 ≤ rest.headD 0 ∧ rest.headD 0 < 0xC0) ∧
          (0x80 ≤ rest.tail.headD 0 ∧ rest.tail.headD 0 < 0xC0) ∧
          (b0 = 0xE0 → 0xA0 ≤ rest.headD 0) ∧ (b0 = 0xED → rest.headD 0 < 0xA0) then
        Char.ofNat ((b0 - 0xE0) * 4096 + (rest.headD 0 - 0x80) * 64 + (rest.tail.headD 0 - 0x80)) ::
          utf8DecodeLossy rest.tail.tail
      else repChar :: utf8DecodeLossy rest
    else if b0 < 0xF5 then
      if (0x80 ≤ rest.headD 0 ∧ rest.headD 0 < 0xC0) ∧
          (0x80 ≤ rest.tail.headD 0 ∧ rest.tail.headD 0 < 0xC0) ∧
          (0x80 ≤ rest.tail.tail.headD 0 ∧ rest.tail.tail.headD 0 < 0xC0) ∧
          (b0 = 0xF0 → 0x90 ≤ rest.headD 0) ∧ (b0 = 0xF4 → rest.headD 0 < 0x90) then
        Char.ofNat ((b0 - 0xF0) * 262144 + (rest.headD 0 - 0x80) * 4096 +
            (rest.tail.headD 0 - 0x80) * 64 + (rest.tail.tail.headD 0 - 0x80)) ::
          utf8DecodeLossy rest.tail.tail.tail
      else repChar :: utf8DecodeLossy rest
    else repChar :: utf8DecodeLossy rest
  termination_by bs => bs.length
  decreasing_by all_goals simp [List.length_tail] <;> omega

/-- Strict UTF-8 decoding: invalid input is rejected. -/
def utf8DecodeStrict : List Nat → Option (List Char)
  | [] => some []
  | b0 :: rest =>
    if b0 < 0x80 then (utf8DecodeStrict rest).map (Char.ofNat b0 :: ·)
    else if b0 < 0xC2 then none
    else if b0 < 0xE0 then
      if 0x80 ≤ rest.headD 0 ∧ rest.headD 0 < 0xC0 then
        (utf8DecodeStrict rest.tail).map
          (Char.ofNat ((b0 - 0xC0) * 64 + (rest.headD 0 - 0x80)) :: ·)
      else none
    else if b0 < 0xF0 then
      if (0x80 ≤ rest.headD 0 ∧ rest.headD 0 < 0xC0) ∧
          (0x80 ≤ rest.tail.headD 0 ∧ rest.tail.headD 0 < 0xC0) ∧
          (b0 = 0xE0 → 0xA0 ≤ rest.headD 0) ∧ (b0 = 0xED → rest.headD 0 < 0xA0) then
        (utf8DecodeStrict rest.tail.tail).map
          (Char.ofNat
            ((b0 - 0xE0) * 4096 + (rest.headD 0 - 0x80) * 64 + (rest.tail.headD 0 - 0x80)) :: ·)
      else none
    else if b0 < 0xF5 then
      if (0x80 ≤ rest.headD 0 ∧ rest.headD 0 < 0xC0) ∧
          (0x80 ≤ rest.tail.headD 0 ∧ rest.tail.headD 0 < 0xC0) ∧
          (0x80 ≤ rest.tail.tail.headD 0 ∧ rest.tail.tail.headD 0 < 0xC0) ∧
          (b0 = 0xF0 → 0x90 ≤ rest.headD 0) ∧ (b0 = 0xF4 → rest.headD 0 < 0x90) then
        (utf8DecodeStrict rest.tail.tail.tail).map
          (Char.ofNat ((b0 - 0xF0) * 262144 + (rest.headD 0 - 0x80) * 4096 +
            (rest.tail.headD 0 - 0x80) * 64 + (rest.tail.tail.headD 0 - 0x80)) :: ·)
      else none
    else none
  termination_by bs => bs.length
  decreasing_by all_goals simp [List.length_tail] <;> omega

/-- Validity bound of a character's code point, in arithmetic form. -/
theorem char_valid_nat (c : Char) :
    c.toNat < 55296 ∨ (57343 < c.toNat ∧ c.toNat < 1114112) := c.valid

/-- Every byte of the UTF-8 encoding of a character fits in a byte. -/
theorem utf8EncodeChar_lt_256 (c : Char) : ∀ b ∈ utf8EncodeChar c, b < 256 := by
  have hv := char_valid_nat c
  unfold utf8EncodeChar
  intro b hb
  by_cases h1 : c.toNat < 0x80
  · rw [if_pos h1] at hb
    simp at hb
    omega
  · rw [if_neg h1] at hb
    by_cases h2 : c.toNat < 0x800
    · rw [if_pos h2] at hb
      simp at hb
      rcases hb with hb | hb <;> omega
    · rw [if_neg h2] at hb
      by_cases h3 : c.toNat < 0x10000
      · rw [if_pos h3] at hb
        simp at hb
        rcases hb with hb | hb | hb <;> omega
      · rw [if_neg h3] at hb
        simp at hb
        have hlt : c.toNat < 0x110000 := by omega
        rcases hb with hb | hb | hb | hb <;> omega

/-- Membership in a concatMap image. -/
theorem mem_concatMap (f : α → List β) :
    ∀ xs : List α, ∀ b ∈ concatMap f xs, ∃ x ∈ xs, b ∈ f x
  | [], b, hb => by simp [concatMap] at hb
  | x :: xs, b, hb => by
    simp only [concatMap, List.mem_append] at hb
    rcases hb with hb | hb
    · exact ⟨x, by simp, hb⟩
    · obtain ⟨y, hy, hby⟩ := mem_concatMap f xs b hb
      exact ⟨y, by simp [hy], hby⟩

/-- Every byte of the UTF-8 encoding of a string fits in a byte. -/
theorem utf8Encode_lt_256 (s : List Char) : ∀ b ∈ utf8Encode s, b < 256 := by
  intro b hb
  obtain ⟨c, _, hbc⟩ := mem_concatMap utf8EncodeChar s b hb
  exact utf8EncodeChar_lt_256 c b hbc

/-- Lossy decoding consumes one encoded character at a time. -/
theorem utf8DecodeLossy_encodeChar (c : Char) (rest : List Nat) :
    utf8DecodeLossy (utf8EncodeChar c ++ rest) = c :: utf8DecodeLossy rest := by
  have hv := char_valid_nat c
  unfold utf8EncodeChar
  by_cases h1 : c.toNat < 0x80
  · rw [if_pos h1]
    simp only [List.cons_append, List.nil_append]
    rw [utf8DecodeLossy]
    rw [if_pos h1, Char.ofNat_toNat]
  · rw [if_neg h1]
    by_cases h2 : c.toNat < 0x800
    · rw [if_pos h2]
      simp only [List.cons_append, List.nil_append]
      rw [utf8DecodeLossy]
      simp only [List.headD_cons, List.tail_cons]
      rw [if_neg (by omega), if_neg (by omega), if_pos (by omega)]
      have harg : (0xC0 + c.toNat / 64 - 0xC0) * 64 + (0x80 + c.toNat % 64 - 0x80) = c.toNat := by
        omega
      rw [harg, Char.ofNat_toNat]
      rw [if_pos (by omega)]
    · by_cases h3 : c.toNat < 0x10000
      · rw [if_neg h2, if_pos h3]
        simp only [List.cons_append, List.nil_append]
        rw [utf8DecodeLossy]
        simp only [List.headD_cons, List.tail_cons]
        rw [if_neg (by omega), if_neg (by omega), if_neg (by omega), if_pos (by omega)]
        have harg : (0xE0 + c.toNat / 4096 - 0xE0) * 4096 + (0x80 + c.toNat / 64 % 64 - 0x80) * 64 +
            (0x80 + c.toNat % 64 - 0x80) = c.toNat := by omega
        rw [harg, Char.ofNat_toNat]
        rw [if_pos (by omega)]
      · rw [if_neg h2, if_neg h3]
        have hlt : c.toNat < 0x110000 := by omega
        simp only [List.cons_append, List.nil_append]
        rw [utf8DecodeLossy]
        simp only [List.headD_cons, List.tail_cons]
        rw [if_neg (by omega), if_neg (by omega), if_neg (by omega), if_neg (by omega),
          if_pos (by omega)]
        have harg : (0xF0 + c.toNat / 262144 - 0xF0) * 262144 +
            (0x80 + c.toNat / 4096 % 64 - 0x80) * 4096 +
            (0x80 + c.toNat / 64 % 64 - 0x80) * 64 + (0x80 + c.toNat % 64 - 0x80) = c.toNat := by
          omega
        rw [harg, Char.ofNat_toNat]
        rw [if_pos (by omega)]

/-- Lossy decoding inverts encoding. -/
theorem utf8DecodeLossy_utf8Encode : ∀ s : List Char, utf8DecodeLossy (utf8Encode s) = s
  | [] => by rw [show utf8Encode [] = [] from rfl, utf8DecodeLossy]
  | c :: s => by
    have ih := utf8DecodeLossy_utf8Encode s
    show utf8DecodeLossy (utf8EncodeChar c ++ utf8Encode s) = c :: s
    rw [utf8DecodeLossy_encodeChar, ih]

/-- Strict decoding consumes one encoded character at a time. -/
theorem utf8DecodeStrict_encodeChar (c : Char) (rest : List Nat) :
    utf8DecodeStrict (utf8EncodeChar c ++ rest) = (utf8DecodeStrict rest).map (c :: ·) := by
  have hv := char_valid_nat c
  unfold utf8EncodeChar
  by_cases h1 : c.toNat < 0x80
  · rw [if_pos h1]
    simp only [List.cons_append, List.nil_append]
    rw [utf8DecodeStrict]
    rw [if_pos h1, Char.ofNat_toNat]
  · rw [if_neg h1]
    by_cases h2 : c.toNat < 0x800
    · rw [if_pos h2]
      simp only [List.cons_append, List.nil_append]
      rw [utf8DecodeStrict]
      simp only [List.headD_cons, List.tail_cons]
      rw [if_neg (by omega), if_neg (by omega), if_pos (by omega)]
      have harg : (0xC0 + c.toNat / 64 - 0xC0) * 64 + (0x80 + c.toNat % 64 - 0x80) = c.toNat := by
        omega
      rw [harg, Char.ofNat_toNat]
      rw [if_pos (by omega)]
    · by_cases h3 : c.toNat < 0x10000
      · rw [if_neg h2, if_pos h3]
        simp only [List.cons_append, List.nil_append]
        rw [utf8DecodeStrict]
        simp only [List.headD_cons, List.tail_cons]
        rw [if_neg (by omega), if_neg (by omega), if_neg (by omega), if_pos (by omega)]
        have harg : (0xE0 + c.toNat / 4096 - 0xE0) * 4096 + (0x80 + c.toNat / 64 % 64 - 0x80) * 64 +
            (0x80 + c.toNat % 64 - 0x80) = c.toNat := by omega
        rw [harg, Char.ofNat_toNat]
        rw [if_pos (by omega)]
      · rw [if_neg h2, if_neg h3]
        have hlt : c.toNat < 0x110000 := by omega
        simp only [List.cons_append, List.nil_append]
        rw [utf8DecodeStrict]
        simp only [List.headD_cons, List.tail_cons]
        rw [if_neg (by omega), if_neg (by omega), if_neg (by omega), if_neg (by omega),
          if_pos (by omega)]
        have harg : (0xF0 + c.toNat / 262144 - 0xF0) * 262144 +
            (0x80 + c.toNat / 4096 % 64 - 0x80) * 4096 +
            (0x80 + c.toNat / 64 % 64 - 0x80) * 64 + (0x80 + c.toNat % 64 - 0x80) = c.toNat := by
          omega
        rw [harg, Char.ofNat_toNat]
        rw [if_pos (by omega)]

/-- Strict decoding inverts encoding. -/
theorem utf8DecodeStrict_utf8Encode : ∀ s : List Char, utf8DecodeStrict (utf8Encode s) = some s
  | [] => by rw [show utf8Encode [] = [] from rfl, utf8DecodeStrict]
  | c :: s => by
    have ih := utf8DecodeStrict_utf8Encode s
    show utf8DecodeStrict (utf8EncodeChar c ++ utf8Encode s) = some (c :: s)
    rw [utf8DecodeStrict_encodeChar, ih]
    rfl

/-! Section 4: JSON values, JSON.stringify and JSON.parse.

JSON.stringify and JSON.parse of the host are embedded over an inductive
value type.  Numbers are exact decimals m / 10 ^ e in positional
notation (the exponent notation JavaScript uses outside the positional
range is not modelled; every number appearing in this SDK's data is
positional).  Objects keep their member list; lookup takes the last
binding, as JSON.parse does with duplicate keys.  String escapes cover
the JSON simple escapes and the four-digit unicode escapes of scalar
values. -/

/-- JavaScript JSON value. -/
inductive Json where
  | null
  | jbool (b : Bool)
  | num (m : Int) (e : Nat)
  | str (s : List Char)
  | arr (xs : List Json)
  | obj (kvs : List (List Char × Json))

/-- Decimal digit character. -/
def digitChar (n : Nat) : Char := Char.ofNat (48 + n)

/-- Lowercase hexadecimal digit character. -/
def hexChar (n : Nat) : Char := if n < 10 then Char.ofNat (48 + n) else Char.ofNat (87 + n)

/-- Value of a hexadecimal digit character, either case. -/
def hexVal (c : Char) : Option Nat :=
  if '0' ≤ c ∧ c ≤ '9' then some (c.toNat - 48)
  else if 'a' ≤ c ∧ c ≤ 'f' then some (c.toNat - 87)
  else if 'A' ≤ c ∧ c ≤ 'F' then some (c.toNat - 55)
  else none

/-- Decimal digits of a natural number, most significant first. -/
def natToDigits (n : Nat) : List Char :=
  if n < 10 then [digitChar n] else natToDigits (n / 10) ++ [digitChar (n % 10)]
  termination_by n
  decreasing_by omega

/-- Exactly e decimal digits of a natural number, zero padded. -/
def padDigits : Nat → Nat → List Char
  | 0, _ => []
  | e + 1, fp => padDigits e (fp / 10) ++ [digitChar (fp % 10)]

/-- Decimal digit test. -/
def isDigitCh (c : Char) : Bool := decide ('0' ≤ c ∧ c ≤ '9')

/-- Numeric value of a decimal digit string. -/
def digitsVal (ds : List Char) : Nat :=
  ds.foldl (fun acc c => acc * 10 + (c.toNat - 48)) 0

/-- Positional rendering of the decimal m / 10 ^ e, as JSON.stringify
renders the numbers in this SDK's range. -/
def stringifyNumCore (a : Nat) (e : Nat) : List Char :=
  if e = 0 then natToDigits a
  else natToDigits (a / 10 ^ e) ++ '.' :: padDigits e (a % 10 ^ e)

/-- Positional rendering of the decimal m / 10 ^ e with its sign. -/
def stringifyNum (m : Int) (e : Nat) : List Char :=
  if m < 0 then '-' :: stringifyNumCore m.natAbs e else stringifyNumCore m.natAbs e

/-- Escape of one character inside a JSON string literal, as
JSON.stringify: quote and backslash escaped, control characters as the
short escapes or four-digit unicode escapes, everything else literal. -/
def escapeChar (c : Char) : List Char :=
  if c = '"' then ['\\', '"']
  else if c = '\\' then ['\\', '\\']
  else if c.toNat ≥ 32 then [c]
  else if c.toNat = 8 then ['\\', 'b']
  else if c.toNat = 9 then ['\\', 't']
  else if c.toNat = 10 then ['\\', 'n']
  else if c.toNat = 12 then ['\\', 'f']
  else if c.toNat = 13 then ['\\', 'r']
  else ['\\', 'u', '0', '0', hexChar (c.toNat / 16), hexChar (c.toNat % 16)]

/-- JSON string literal of a character list, quotes included. -/
def stringifyString (s : List Char) : List Char :=
  '"' :: concatMap escapeChar s ++ ['"']

mutual

/-- Serialization of a JSON value, as JSON.stringify: no whitespace,
members in list order. -/
def stringifyJson : Json → List Char
  | .null => ['n', 'u', 'l', 'l']
  | .jbool true => ['t', 'r', 'u', 'e']
  | .jbool false => ['f', 'a', 'l', 's', 'e']
  | .num m e => stringifyNum m e
  | .str s => stringifyString s
  | .arr xs => '[' :: stringifyElems xs ++ [']']
  | .obj kvs => '\x7b' :: stringifyMembers kvs ++ ['\x7d']

/-- Serialization of array elements, comma separated. -/
def stringifyElems : List Json → List Char
  | [] => []
  | [x] => stringifyJson x
  | x :: y :: xs => stringifyJson x ++ ',' :: stringifyElems (y :: xs)

/-- Serialization of object members, comma separated. -/
def stringifyMembers : List (List Char × Json) → List Char
  | [] => []
  | [(k, v)] => stringifyString k ++ ':' :: stringifyJson v
  | (k, v) :: m :: kvs =>
      (stringifyString k ++ ':' :: stringifyJson v) ++ ',' :: stringifyMembers (m :: kvs)

end

/-- Whitespace test of the JSON grammar. -/
def isWsCh (c : Char) : Bool := (c == ' ') || (c == '\n') || (c == '\r') || (c == '\t')

/-- Skipping JSON whitespace. -/
def skipWs (s : List Char) : List Char := s.dropWhile isWsCh

/-- Prefixing a character onto a pending string-body parse. -/
def consStr (x : Char) (o : Option (List Char × List Char)) : Option (List Char × List Char) :=
  o.map fun p => (x :: p.1, p.2)

/-- Parse of a JSON string body after the opening quote, returning the
contents and the remainder after the closing quote.  Escapes are decoded;
raw control characters are rejected; unicode escapes must denote scalar
values (the UTF-16 surrogate pairing of the host is outside the model). -/
def parseStringBodyF : Nat → List Char → Option (List Char × List Char)
  | 0, _ => none
  | _ + 1, [] => none
  | fuel + 1, c :: rest =>
    if c = '"' then some ([], rest)
    else if c = '\\' then
      if rest = [] then none
      else
        let e := rest.headD 'x'
        let r1 := rest.tail
        if e = '"' ∨ e = '\\' ∨ e = '/' then consStr e (parseStringBodyF fuel r1)
        else if e = 'b' then consStr (Char.ofNat 8) (parseStringBodyF fuel r1)
        else if e = 't' then consStr (Char.ofNat 9) (parseStringBodyF fuel r1)
        else if e = 'n' then consStr (Char.ofNat 10) (parseStringBodyF fuel r1)
        else if e = 'f' then consStr (Char.ofNat 12) (parseStringBodyF fuel r1)
        else if e = 'r' then consStr (Char.ofNat 13) (parseStringBodyF fuel r1)
        else if e = 'u' then
          match hexVal (r1.headD 'x'), hexVal (r1.tail.headD 'x'),
              hexVal (r1.tail.tail.headD 'x'), hexVal (r1.tail.tail.tail.headD 'x') with
          | some a, some b, some c2, some d =>
            let n := ((a * 16 + b) * 16 + c2) * 16 + d
            if n < 0xD800 ∨ 0xDFFF < n then
              consStr (Char.ofNat n) (parseStringBodyF fuel r1.tail.tail.tail.tail)
            else none
          | _, _, _, _ => none
        else none
    else if c.toNat ≥ 32 then consStr c (parseStringBodyF fuel rest)
    else none

/-- Parse of a JSON string body after the opening quote; the fuel, one
unit per produced character, is drawn from the input length at the entry
point. -/
def parseStringBody (s : List Char) : Option (List Char × List Char) :=
  parseStringBodyF (s.length + 1) s

/-- Parse of the digits of a JSON number after the optional sign. -/
def parseNumberBody (neg : Bool) (input1 : List Char) : Option (Json × List Char) :=
  let ip := input1.takeWhile isDigitCh
  let rest1 := input1.dropWhile isDigitCh
  if ip.isEmpty then none
  else if 1 < ip.length ∧ ip.headD 'x' = '0' then none
  else if rest1.headD 'x' = '.' then
    let fp := rest1.tail.takeWhile isDigitCh
    let rest2 := rest1.tail.dropWhile isDigitCh
    if fp.isEmpty then none
    else
      let a : Int := Int.ofNat (digitsVal (ip ++ fp))
      some (.num (if neg then -a else a) fp.length, rest2)
  else
    let a : Int := Int.ofNat (digitsVal ip)
    some (.num (if neg then -a else a) 0, rest1)

/-- Parse of a JSON number in positional notation. -/
def parseNumber (input : List Char) : Option (Json × List Char) :=
  if input.headD 'x' = '-' then parseNumberBody true input.tail
  else parseNumberBody false input

mutual

/-- Parse of one JSON value; the fuel bounds the recursion depth and is
chosen large enough at the entry point. -/
def parseValue : Nat → List Char → Option (Json × List Char)
  | 0, _ => none
  | fuel + 1, input0 =>
    let input := skipWs input0
    match input with
    | [] => none
    | c :: r =>
      if c = '"' then (parseStringBody r).map (fun p => (.str p.1, p.2))
      else if c = 'n' then
        if r.headD 'x' = 'u' ∧ r.tail.headD 'x' = 'l' ∧ r.tail.tail.headD 'x' = 'l' then
          some (.null, r.tail.tail.tail)
        else none
      else if c = 't' then
        if r.headD 'x' = 'r' ∧ r.tail.headD 'x' = 'u' ∧ r.tail.tail.headD 'x' = 'e' then
          some (.jbool true, r.tail.tail.tail)
        else none
      else if c = 'f' then
        if r.headD 'x' = 'a' ∧ r.tail.headD 'x' = 'l' ∧ r.tail.tail.headD 'x' = 's' ∧
            r.tail.tail.tail.headD 'x' = 'e' then
          some (.jbool false, r.tail.tail.tail.tail)
        else none
      else if c = '[' then
        let r1 := skipWs r
        if r1.headD 'x' = ']' then some (.arr [], r1.tail)
        else (parseElems fuel r).map (fun p => (.arr p.1, p.2))
      else if c = '\x7b' then
        let r1 := skipWs r
        if r1.headD 'x' = '\x7d' then some (.obj [], r1.tail)
        else (parseMembers fuel r).map (fun p => (.obj p.1, p.2))
      else parseNumber (c :: r)

/-- Parse of one or more comma-separated array elements up to the closing
bracket. -/
def parseElems : Nat → List Char → Option (List Json × List Char)
  | 0, _ => none
  | fuel + 1, input =>
    (parseValue fuel input).bind fun p =>
    let r2 := skipWs p.2
    if r2.headD 'x' = ',' then (parseElems fuel r2.tail).map (fun q => (p.1 :: q.1, q.2))
    else if r2.headD 'x' = ']' then some ([p.1], r2.tail)
    else none

/-- Parse of one or more comma-separated object members up to the closing
brace. -/
def parseMembers : Nat → List Char → Option (List (List Char × Json) × List Char)
  | 0, _ => none
  | fuel + 1, input =>
    let i1 := skipWs input
    if i1.headD 'x' = '"' then
      (parseStringBody i1.tail).bind fun kp =>
      let r2 := skipWs kp.2
      if r2.headD 'x' = ':' then
        (parseValue fuel r2.tail).bind fun vp =>
        let r4 := skipWs vp.2
        if r4.headD 'x' = ',' then
          (parseMembers fuel r4.tail).map (fun q => ((kp.1, vp.1) :: q.1, q.2))
        else if r4.headD 'x' = '\x7d' then some ([(kp.1, vp.1)], r4.tail)
        else none
      else none
    else none

end

/-- JSON.parse: parse one value, require only whitespace after it. -/
def jsonParse (s : List Char) : Option Json :=
  (parseValue (2 * s.length + 2) s).bind fun p =>
  if skipWs p.2 = [] then some p.1 else none

/-- Property lookup on a parsed JSON value, as JavaScript member access on
the result of JSON.parse: only objects carry members, and the last
duplicate key wins. -/
def jsLookup (v : Json) (k : List Char) : Option Json :=
  match v with
  | .obj kvs => kvs.foldl (fun acc kv => if kv.1 = k then some kv.2 else acc) none
  | _ => none

/-! Section 5: round-trip lemmas for numbers and strings. -/

theorem toNat_digitChar (n : Nat) (h : n < 10) : (digitChar n).toNat = 48 + n := by
  unfold digitChar
  exact toNat_ofNat_valid _ (by omega)

theorem isDigitCh_digitChar (n : Nat) (h : n < 10) : isDigitCh (digitChar n) = true := by
  unfold isDigitCh
  have h1 := toNat_digitChar n h
  rw [decide_eq_true_iff]
  have h0 : '0'.toNat = 48 := rfl
  have h9 : '9'.toNat = 57 := rfl
  constructor
  · show '0'.toNat ≤ (digitChar n).toNat
    omega
  · show (digitChar n).toNat ≤ '9'.toNat
    omega

theorem natToDigits_ne_nil (n : Nat) : natToDigits n ≠ [] := by
  rw [natToDigits]
  by_cases h : n < 10
  · rw [if_pos h]
    simp
  · rw [if_neg h]
    simp

theorem natToDigits_digits (n : Nat) : ∀ c ∈ natToDigits n, isDigitCh c = true := by
  induction n using Nat.strong_induction_on with
  | _ n ih =>
    rw [natToDigits]
    by_cases h : n < 10
    · rw [if_pos h]
      intro c hc
      simp at hc
      rw [hc]
      exact isDigitCh_digitChar n h
    · rw [if_neg h]
      intro c hc
      rw [List.mem_append] at hc
      rcases hc with hc | hc
      · exact ih (n / 10) (by omega) c hc
      · simp at hc
        rw [hc]
        exact isDigitCh_digitChar (n % 10) (by omega)

theorem padDigits_digits (e : Nat) : ∀ fp, ∀ c ∈ padDigits e fp, isDigitCh c = true := by
  induction e with
  | zero => intro fp c hc; simp [padDigits] at hc
  | succ e ih =>
    intro fp c hc
    simp only [padDigits, List.mem_append] at hc
    rcases hc with hc | hc
    · exact ih (fp / 10) c hc
    · simp at hc
      rw [hc]
      exact isDigitCh_digitChar (fp % 10) (by omega)

theorem padDigits_length (e : Nat) : ∀ fp, (padDigits e fp).length = e := by
  induction e with
  | zero => intro fp; rfl
  | succ e ih => intro fp; simp [padDigits, ih]

theorem digitsVal_append_single (xs : List Char) (c : Char) :
    digitsVal (xs ++ [c]) = digitsVal xs * 10 + (c.toNat - 48) := by
  unfold digitsVal
  rw [List.foldl_append]
  rfl

theorem digitsVal_natToDigits (n : Nat) : digitsVal (natToDigits n) = n := by
  induction n using Nat.strong_induction_on with
  | _ n ih =>
    rw [natToDigits]
    by_cases h : n < 10
    · rw [if_pos h]
      show digitsVal ([] ++ [digitChar n]) = n
      rw [digitsVal_append_single]
      have := toNat_digitChar n h
      simp [digitsVal]
      omega
    · rw [if_neg h]
      rw [digitsVal_append_single, ih (n / 10) (by omega)]
      have := toNat_digitChar (n % 10) (by omega)
      omega

theorem digitsVal_padDigits (e : Nat) : ∀ fp, digitsVal (padDigits e fp) = fp % 10 ^ e := by
  induction e with
  | zero => intro fp; simp [padDigits, digitsVal, Nat.mod_one]
  | succ e ih =>
    intro fp
    simp only [padDigits]
    rw [digitsVal_append_single, ih (fp / 10)]
    have := toNat_digitChar (fp % 10) (by omega)
    have hpow : 10 ^ (e + 1) = 10 * 10 ^ e := by ring
    rw [hpow, Nat.mod_mul]
    have hp : 0 < 10 ^ e := Nat.pos_pow_of_pos e (by omega)
    omega

theorem digitsVal_foldl_acc (ys : List Char) :
    ∀ A : Nat, ys.foldl (fun acc c => acc * 10 + (c.toNat - 48)) A =
      A * 10 ^ ys.length + digitsVal ys := by
  induction ys with
  | nil => intro A; simp [digitsVal]
  | cons c ys ih =>
    intro A
    show List.foldl _ (A * 10 + (c.toNat - 48)) ys = _
    rw [ih]
    have hv : digitsVal (c :: ys) = (c.toNat - 48) * 10 ^ ys.length + digitsVal ys := by
      show List.foldl _ (0 * 10 + (c.toNat - 48)) ys = _
      rw [ih]
      ring
    rw [hv]
    simp [List.length_cons, pow_succ]
    ring

theorem digitsVal_append (xs ys : List Char) :
    digitsVal (xs ++ ys) = digitsVal xs * 10 ^ ys.length + digitsVal ys := by
  show List.foldl _ 0 (xs ++ ys) = _
  rw [List.foldl_append]
  exact digitsVal_foldl_acc ys _

theorem headD_append_ne_nil (xs ys : List Char) (d : Char) (h : xs ≠ []) :
    (xs ++ ys).headD d = xs.headD d := by
  cases xs with
  | nil => exact absurd rfl h
  | cons x t => rfl

theorem takeWhile_append_all (p : Char → Bool) :
    ∀ xs rest : List Char, (∀ c ∈ xs, p c = true) → p (rest.headD 'x') = false →
      (xs ++ rest).takeWhile p = xs ∧ (xs ++ rest).dropWhile p = rest
  | [], rest, _, hrest => by
    cases rest with
    | nil => exact ⟨rfl, rfl⟩
    | cons r t =>
      simp only [List.headD_cons] at hrest
      simp [List.takeWhile_cons, List.dropWhile_cons, hrest]
  | x :: xs, rest, hall, hrest => by
    have hx : p x = true := hall x (by simp)
    have ih := takeWhile_append_all p xs rest (fun c hc => hall c (by simp [hc])) hrest
    simp only [List.cons_append, List.takeWhile_cons, List.dropWhile_cons, hx]
    simp [ih.1, ih.2]

theorem isDigitCh_false_of_toNat (c : Char) (h : c.toNat < 48 ∨ 57 < c.toNat) :
    isDigitCh c = false := by
  unfold isDigitCh
  rw [decide_eq_false_iff_not]
  intro hc
  obtain ⟨h1, h2⟩ := hc
  have g1 : '0'.toNat ≤ c.toNat := h1
  have g2 : c.toNat ≤ '9'.toNat := h2
  have h0 : '0'.toNat = 48 := rfl
  have h9 : '9'.toNat = 57 := rfl
  omega

theorem digit_toNat_of_isDigitCh (c : Char) (h : isDigitCh c = true) :
    48 ≤ c.toNat ∧ c.toNat ≤ 57 := by
  unfold isDigitCh at h
  rw [decide_eq_true_iff] at h
  obtain ⟨h1, h2⟩ := h
  have g1 : '0'.toNat ≤ c.toNat := h1
  have g2 : c.toNat ≤ '9'.toNat := h2
  have h0 : '0'.toNat = 48 := rfl
  have h9 : '9'.toNat = 57 := rfl
  omega

theorem natToDigits_headD_ne_zero (n : Nat) (hn : 1 ≤ n) :
    (natToDigits n).headD 'x' ≠ '0' := by
  induction n using Nat.strong_induction_on with
  | _ n ih =>
    rw [natToDigits]
    by_cases h : n < 10
    · rw [if_pos h]
      intro hc
      simp only [List.headD_cons] at hc
      have := toNat_digitChar n (by omega)
      have h48 : '0'.toNat = 48 := rfl
      rw [hc] at this
      omega
    · rw [if_neg h]
      rw [headD_append_ne_nil _ _ _ (natToDigits_ne_nil _)]
      exact ih (n / 10) (by omega) (by omega)

theorem natToDigits_single_iff (n : Nat) (h : n < 10) : natToDigits n = [digitChar n] := by
  rw [natToDigits, if_pos h]

theorem headD_mem (xs : List Char) (d : Char) (h : xs ≠ []) : xs.headD d ∈ xs := by
  cases xs with
  | nil => exact absurd rfl h
  | cons x t => simp

theorem isEmpty_false_of_ne_nil (xs : List Char) (h : xs ≠ []) : xs.isEmpty = false := by
  cases xs with
  | nil => exact absurd rfl h
  | cons x t => rfl

theorem isDigitCh_ne_minus (c : Char) (h : isDigitCh c = true) : c ≠ '-' := by
  intro he
  have hd := digit_toNat_of_isDigitCh c h
  rw [he] at hd
  have h45 : ('-').toNat = 45 := rfl
  omega

theorem natToDigits_no_leading_zero (a : Nat) :
    ¬(1 < (natToDigits a).length ∧ (natToDigits a).headD 'x' = '0') := by
  rintro ⟨h1, h2⟩
  by_cases h : a < 10
  · rw [natToDigits_single_iff a h] at h1
    simp at h1
  · exact natToDigits_headD_ne_zero a (by omega) h2

theorem stringifyNumCore_ne_nil (a e : Nat) : stringifyNumCore a e ≠ [] := by
  unfold stringifyNumCore
  by_cases he : e = 0
  · rw [if_pos he]
    exact natToDigits_ne_nil a
  · rw [if_neg he]
    simp [natToDigits_ne_nil]

theorem stringifyNumCore_headD_digit (a e : Nat) :
    isDigitCh ((stringifyNumCore a e).headD 'x') = true := by
  unfold stringifyNumCore
  by_cases he : e = 0
  · rw [if_pos he]
    exact natToDigits_digits a _ (headD_mem _ _ (natToDigits_ne_nil a))
  · rw [if_neg he, headD_append_ne_nil _ _ _ (natToDigits_ne_nil _)]
    exact natToDigits_digits _ _ (headD_mem _ _ (natToDigits_ne_nil _))

/-- Parse of an unsigned rendered number body. -/
theorem parseNumberBody_core (neg : Bool) (A e : Nat) (rest : List Char)
    (hrest : isDigitCh (rest.headD 'x') = false) (hdot : rest.headD 'x' ≠ '.') :
    parseNumberBody neg (stringifyNumCore A e ++ rest) =
      some (.num (if neg then -(Int.ofNat A) else Int.ofNat A) e, rest) := by
  unfold stringifyNumCore
  by_cases he : e = 0
  · subst he
    rw [if_pos rfl]
    have hdigs := natToDigits_digits A
    have hne := natToDigits_ne_nil A
    have htd := takeWhile_append_all isDigitCh (natToDigits A) rest hdigs hrest
    simp only [parseNumberBody]
    rw [htd.1, htd.2]
    rw [if_neg (by simp [isEmpty_false_of_ne_nil _ hne]),
      if_neg (natToDigits_no_leading_zero A), if_neg hdot]
    rw [digitsVal_natToDigits]
  · rw [if_neg he]
    have hdigs := natToDigits_digits (A / 10 ^ e)
    have hne := natToDigits_ne_nil (A / 10 ^ e)
    have hfdigs := padDigits_digits e (A % 10 ^ e)
    have hflen := padDigits_length e (A % 10 ^ e)
    have hfne : padDigits e (A % 10 ^ e) ≠ [] := by
      intro hn
      rw [hn] at hflen
      simp at hflen
      omega
    have hassoc : (natToDigits (A / 10 ^ e) ++ '.' :: padDigits e (A % 10 ^ e)) ++ rest =
        natToDigits (A / 10 ^ e) ++ '.' :: (padDigits e (A % 10 ^ e) ++ rest) := by
      simp
    rw [hassoc]
    have htd1 := takeWhile_append_all isDigitCh (natToDigits (A / 10 ^ e))
      ('.' :: (padDigits e (A % 10 ^ e) ++ rest)) hdigs (by simp; decide)
    have htd2 := takeWhile_append_all isDigitCh (padDigits e (A % 10 ^ e)) rest hfdigs hrest
    simp only [parseNumberBody]
    rw [htd1.1, htd1.2]
    rw [if_neg (by simp [isEmpty_false_of_ne_nil _ hne]),
      if_neg (natToDigits_no_leading_zero _)]
    simp only [List.headD_cons, List.tail_cons]
    rw [if_pos trivial]
    rw [htd2.1, htd2.2]
    rw [if_neg (by simp [isEmpty_false_of_ne_nil _ hfne])]
    rw [digitsVal_append, digitsVal_natToDigits, digitsVal_padDigits, hflen]
    have hpos : 0 < 10 ^ e := Nat.pos_pow_of_pos e (by omega)
    have hval : A / 10 ^ e * 10 ^ e + A % 10 ^ e % 10 ^ e = A := by
      rw [Nat.mod_eq_of_lt (Nat.mod_lt _ hpos), Nat.mul_comm]
      exact Nat.div_add_mod A (10 ^ e)
    rw [hval]

/-- Parse of a rendered signed number followed by anything that does not
continue the numeral. -/
theorem parseNumber_stringifyNum (m : Int) (e : Nat) (rest : List Char)
    (hrest : isDigitCh (rest.headD 'x') = false) (hdot : rest.headD 'x' ≠ '.') :
    parseNumber (stringifyNum m e ++ rest) = some (.num m e, rest) := by
  unfold stringifyNum
  by_cases hm : m < 0
  · rw [if_pos hm]
    show parseNumber ('-' :: (stringifyNumCore m.natAbs e ++ rest)) = _
    unfold parseNumber
    simp only [List.headD_cons, List.tail_cons]
    rw [if_pos trivial, parseNumberBody_core _ _ _ _ hrest hdot]
    have h1 : Int.ofNat m.natAbs = (m.natAbs : Int) := rfl
    have : -(Int.ofNat m.natAbs) = m := by
      rw [h1]
      omega
    simp [this]
    rw [abs_of_neg hm]
    omega
  · rw [if_neg hm]
    unfold parseNumber
    have hne := stringifyNumCore_ne_nil m.natAbs e
    have hd : isDigitCh ((stringifyNumCore m.natAbs e ++ rest).headD 'x') = true := by
      rw [headD_append_ne_nil _ _ _ hne]
      exact stringifyNumCore_headD_digit m.natAbs e
    rw [if_neg (isDigitCh_ne_minus _ hd), parseNumberBody_core _ _ _ _ hrest hdot]
    have h1 : Int.ofNat m.natAbs = (m.natAbs : Int) := rfl
    have : Int.ofNat m.natAbs = m := by
      rw [h1]
      omega
    simp [this]
    omega

theorem hexVal_hexChar : ∀ v < 16, hexVal (hexChar v) = some v := by decide

/-- Parse of one escaped character: the escape of c followed by any parsable
string body parses to c consed onto that body. -/
theorem parseStringBodyF_escapeChar (fuel : Nat) (c : Char) (T : List Char)
    (res : List Char × List Char) (h : parseStringBodyF fuel T = some res) :
    parseStringBodyF (fuel + 1) (escapeChar c ++ T) = some (c :: res.1, res.2) := by
  have hv := char_valid_nat c
  unfold escapeChar
  by_cases hq : c = '"'
  · subst hq
    rw [if_pos rfl]
    show parseStringBodyF (fuel + 1) ('\\' :: '"' :: T) = _
    rw [parseStringBodyF]
    rw [if_neg (by decide), if_pos rfl, if_neg (by simp)]
    simp only [List.headD_cons, List.tail_cons]
    rw [if_pos (Or.inl trivial)]
    rw [consStr, h]
    rfl
  · rw [if_neg hq]
    by_cases hb : c = '\\'
    · subst hb
      rw [if_pos rfl]
      show parseStringBodyF (fuel + 1) ('\\' :: '\\' :: T) = _
      rw [parseStringBodyF]
      rw [if_neg (by decide), if_pos rfl, if_neg (by simp)]
      simp only [List.headD_cons, List.tail_cons]
      rw [if_pos (Or.inr (Or.inl trivial))]
      rw [consStr, h]
      rfl
    · rw [if_neg hb]
      by_cases hge : c.toNat ≥ 32
      · rw [if_pos hge]
        show parseStringBodyF (fuel + 1) (c :: T) = _
        rw [parseStringBodyF]
        rw [if_neg hq, if_neg hb, if_pos hge]
        rw [consStr, h]
        rfl
      · rw [if_neg hge]
        by_cases h8 : c.toNat = 8
        · rw [if_pos h8]
          show parseStringBodyF (fuel + 1) ('\\' :: 'b' :: T) = _
          rw [parseStringBodyF]
          rw [if_neg (by decide), if_pos rfl, if_neg (by simp)]
          simp only [List.headD_cons, List.tail_cons]
          rw [if_neg (by decide), if_pos trivial]
          rw [consStr, h]
          have hc : Char.ofNat 8 = c := by
            rw [← h8, Char.ofNat_toNat]
          rw [hc]
          rfl
        · rw [if_neg h8]
          by_cases h9 : c.toNat = 9
          · rw [if_pos h9]
            show parseStringBodyF (fuel + 1) ('\\' :: 't' :: T) = _
            rw [parseStringBodyF]
            rw [if_neg (by decide), if_pos rfl, if_neg (by simp)]
            simp only [List.headD_cons, List.tail_cons]
            rw [if_neg (by decide), if_neg (by decide), if_pos trivial]
            rw [consStr, h]
            have hc : Char.ofNat 9 = c := by
              rw [← h9, Char.ofNat_toNat]
            rw [hc]
            rfl
          · rw [if_neg h9]
            by_cases h10 : c.toNat = 10
            · rw [if_pos h10]
              show parseStringBodyF (fuel + 1) ('\\' :: 'n' :: T) = _
              rw [parseStringBodyF]
              rw [if_neg (by decide), if_pos rfl, if_neg (by simp)]
              simp only [List.headD_cons, List.tail_cons]
              rw [if_neg (by decide), if_neg (by decide), if_neg (by decide), if_pos trivial]
              rw [consStr, h]
              have hc : Char.ofNat 10 = c := by
                rw [← h10, Char.ofNat_toNat]
              rw [hc]
              rfl
            · rw [if_neg h10]
              by_cases h12 : c.toNat = 12
              · rw [if_pos h12]
                show parseStringBodyF (fuel + 1) ('\\' :: 'f' :: T) = _
                rw [parseStringBodyF]
                rw [if_neg (by decide), if_pos rfl, if_neg (by simp)]
                simp only [List.headD_cons, List.tail_cons]
                rw [if_neg (by decide), if_neg (by decide), if_neg (by decide),
                  if_neg (by decide), if_pos trivial]
                rw [consStr, h]
                have hc : Char.ofNat 12 = c := by
                  rw [← h12, Char.ofNat_toNat]
                rw [hc]
                rfl
              · rw [if_neg h12]
                by_cases h13 : c.toNat = 13
                · rw [if_pos h13]
                  show parseStringBodyF (fuel + 1) ('\\' :: 'r' :: T) = _
                  rw [parseStringBodyF]
                  rw [if_neg (by decide), if_pos rfl, if_neg (by simp)]
                  simp only [List.headD_cons, List.tail_cons]
                  rw [if_neg (by decide), if_neg (by decide), if_neg (by decide),
                    if_neg (by decide), if_neg (by decide), if_pos trivial]
                  rw [consStr, h]
                  have hc : Char.ofNat 13 = c := by
                    rw [← h13, Char.ofNat_toNat]
                  rw [hc]
                  rfl
                · rw [if_neg h13]
                  show parseStringBodyF (fuel + 1)
                      ('\\' :: 'u' :: '0' :: '0' ::
                        hexChar (c.toNat / 16) :: hexChar (c.toNat % 16) :: T) = _
                  rw [parseStringBodyF]
                  rw [if_neg (by decide), if_pos rfl, if_neg (by simp)]
                  simp only [List.headD_cons, List.tail_cons]
                  rw [if_neg (by decide), if_neg (by decide), if_neg (by decide),
                    if_neg (by decide), if_neg (by decide), if_neg (by decide), if_pos trivial]
                  have hhex0 : hexVal '0' = some 0 := rfl
                  have hhexHi := hexVal_hexChar (c.toNat / 16) (by omega)
                  have hhexLo := hexVal_hexChar (c.toNat % 16) (by omega)
                  rw [hhex0, hhexHi, hhexLo]
                  have harg : ((0 * 16 + 0) * 16 + c.toNat / 16) * 16 + c.toNat % 16 =
                      c.toNat := by omega
                  simp only [harg]
                  rw [if_pos (Or.inl (by omega))]
                  rw [consStr, h, Char.ofNat_toNat]
                  rfl

/-- Parse of a serialized string body with enough fuel. -/
theorem parseStringBodyF_escape :
    ∀ (s : List Char) (rest : List Char) (fuel : Nat), fuel ≥ s.length + 1 →
      parseStringBodyF fuel (concatMap escapeChar s ++ '"' :: rest) = some (s, rest)
  | [], rest, fuel, hf => by
    match fuel, hf with
    | f + 1, _ =>
      show parseStringBodyF (f + 1) ('"' :: rest) = some ([], rest)
      rw [parseStringBodyF]
      rw [if_pos rfl]
  | c :: s, rest, fuel, hf => by
    match fuel, hf with
    | f + 1, hf =>
      have ih := parseStringBodyF_escape s rest f (by
        have := hf
        simp only [List.length_cons] at this
        omega)
      have hassoc : concatMap escapeChar (c :: s) ++ '"' :: rest =
          escapeChar c ++ (concatMap escapeChar s ++ '"' :: rest) := by
        simp [concatMap]
      rw [hassoc]
      exact parseStringBodyF_escapeChar f c _ (s, rest) ih

theorem escapeChar_length_pos (c : Char) : 1 ≤ (escapeChar c).length := by
  unfold escapeChar
  repeat' split
  all_goals simp

theorem concatMap_escapeChar_length (s : List Char) :
    s.length ≤ (concatMap escapeChar s).length := by
  induction s with
  | nil => simp [concatMap]
  | cons c s ih =>
    simp only [concatMap, List.length_append, List.length_cons]
    have := escapeChar_length_pos c
    omega

/-- Parse of a serialized string body: the escaped characters followed by
the closing quote parse back to the original characters. -/
theorem parseStringBody_escape (s : List Char) (rest : List Char) :
    parseStringBody (concatMap escapeChar s ++ '"' :: rest) = some (s, rest) := by
  unfold parseStringBody
  apply parseStringBodyF_escape
  have h1 := concatMap_escapeChar_length s
  simp only [List.length_append, List.length_cons]
  omega

/-! Section 6: the JWT verifier (src/utils/jwt.ts).

jwtVerify throws untyped Errors in the source; the embedding returns an
Except over an error kind per failure: MalformedToken for the explicit
segment-count throw and for the decode and JSON.parse exceptions raised
while reading a segment, and the typed kinds for the algorithm, signature
and temporal checks.  The platform HMAC is a parameter: any function from
algorithm name, key and data to a byte buffer. -/

/-- Failure kinds of the verifier, naming the five failure classes of the
specification. -/
inductive JWTError where
  | malformedToken
  | unsupportedAlgorithm
  | invalidSignature
  | expired
  | notYetValid
deriving DecidableEq

/-- Type of the platform HMAC primitive: algorithm name, key, data to
signature bytes. -/
def HmacFn : Type := List Char → List Char → List Char → List Nat

/-- Split at every dot, as token.split in jwtVerify and decodeJWT: the
empty string yields one empty segment. -/
def splitDots : List Char → List (List Char)
  | [] => [[]]
  | c :: rest =>
    if c = '.' then [] :: splitDots rest
    else
      match splitDots rest with
      | [] => [[c]]
      | seg :: segs => (c :: seg) :: segs

theorem splitDots_ne_nil : ∀ s : List Char, splitDots s ≠ []
  | [] => by simp [splitDots]
  | c :: rest => by
    rw [splitDots]
    by_cases h : c = '.'
    · rw [if_pos h]
      simp
    · rw [if_neg h]
      have := splitDots_ne_nil rest
      match hm : splitDots rest with
      | [] => exact absurd hm this
      | seg :: segs => simp

theorem splitDots_no_dot : ∀ s : List Char, (∀ x ∈ s, x ≠ '.') → splitDots s = [s]
  | [], _ => rfl
  | c :: rest, h => by
    rw [splitDots]
    rw [if_neg (h c (by simp))]
    rw [splitDots_no_dot rest (fun x hx => h x (by simp [hx]))]

theorem splitDots_append : ∀ a t : List Char, (∀ x ∈ a, x ≠ '.') →
    splitDots (a ++ '.' :: t) = a :: splitDots t
  | [], t, _ => by
    show splitDots ('.' :: t) = [] :: splitDots t
    rw [splitDots, if_pos rfl]
  | c :: a, t, h => by
    show splitDots (c :: (a ++ '.' :: t)) = (c :: a) :: splitDots t
    rw [splitDots]
    rw [if_neg (h c (by simp))]
    rw [splitDots_append a t (fun x hx => h x (by simp [hx]))]

/-- Constant-time comparison of the browser backend in src/utils/jwt.ts:
false on length mismatch, otherwise the loop that ors the xor of every
byte pair into an accumulator and compares the accumulator with zero. -/
def timingSafeEqual (a b : List Nat) : Bool :=
  if a.length ≠ b.length then false
  else ((List.zipWith Nat.xor a b).foldl Nat.lor 0) == 0

/-- The comparison loop of the browser backend instrumented with its
iteration count. -/
def tseLoop : List (Nat × Nat) → Nat → Nat × Nat
  | [], acc => (acc, 0)
  | p :: ps, acc =>
    let r := tseLoop ps (acc ||| (p.1 ^^^ p.2))
    (r.1, r.2 + 1)

/-- The browser comparison with its iteration count: the loop body runs
once per byte position when the lengths agree. -/
def timingSafeEqualSteps (a b : List Nat) : Bool × Nat :=
  if a.length ≠ b.length then (false, 0)
  else
    let r := tseLoop (a.zip b) 0
    (r.1 == 0, r.2)

/-- Comparison of the node backend in src/utils/jwt.ts: explicit length
check, then the platform timingSafeEqual, whose contract on equal-length
buffers is plain byte equality (its length-mismatch exception is caught
and turned into false, but the guard already excludes that case). -/
def timingSafeEqualNode (a b : List Nat) : Bool :=
  if a.length ≠ b.length then false
  else a == b

theorem foldl_lor_eq_zero :
    ∀ (xs : List Nat) (acc : Nat), (xs.foldl Nat.lor acc = 0 ↔ acc = 0 ∧ ∀ x ∈ xs, x = 0)
  | [], acc => by simp
  | x :: xs, acc => by
    show (List.foldl Nat.lor (acc ||| x) xs = 0) ↔ _
    rw [foldl_lor_eq_zero xs (acc ||| x), lor_eq_zero_iff]
    constructor
    · rintro ⟨⟨h1, h2⟩, h3⟩
      exact ⟨h1, by simpa [h2] using h3⟩
    · rintro ⟨h1, h2⟩
      exact ⟨⟨h1, h2 x (by simp)⟩, fun y hy => h2 y (by simp [hy])⟩

theorem zipWith_xor_zero_iff :
    ∀ a b : List Nat, a.length = b.length →
      ((∀ x ∈ List.zipWith Nat.xor a b, x = 0) ↔ a = b)
  | [], [], _ => by simp
  | [], b :: bs, h => by simp at h
  | a :: as, [], h => by simp at h
  | a :: as, b :: bs, h => by
    simp only [List.zipWith_cons_cons, List.mem_cons, List.cons.injEq]
    rw [← zipWith_xor_zero_iff as bs (by simpa using h)]
    constructor
    · intro hall
      constructor
      · have := hall (a ^^^ b) (Or.inl rfl)
        exact Nat.xor_eq_zero.mp this
      · intro x hx
        exact hall x (Or.inr hx)
    · rintro ⟨rfl, hall⟩
      intro x hx
      rcases hx with hx | hx
      · rw [hx]
        exact Nat.xor_self a
      · exact hall x hx

/-- Functional characterisation of the browser comparison on equal-length
buffers. -/
theorem timingSafeEqual_eq_iff (a b : List Nat) (h : a.length = b.length) :
    (timingSafeEqual a b = true ↔ a = b) := by
  unfold timingSafeEqual
  rw [if_neg (by omega)]
  rw [beq_iff_eq]
  rw [foldl_lor_eq_zero]
  simp only [true_and]
  exact zipWith_xor_zero_iff a b h

theorem timingSafeEqual_self (a : List Nat) : timingSafeEqual a a = true :=
  (timingSafeEqual_eq_iff a a rfl).mpr rfl

theorem timingSafeEqual_ne (a b : List Nat) (h : a ≠ b) : timingSafeEqual a b = false := by
  by_cases hl : a.length = b.length
  · have := timingSafeEqual_eq_iff a b hl
    rcases hb : timingSafeEqual a b with _ | _
    · rfl
    · exact absurd (this.mp hb) h
  · unfold timingSafeEqual
    rw [if_pos (by omega)]

theorem urlify_b64Char_ne_dot (n : Nat) : urlifyChar (b64Char n) ≠ '.' := by
  by_cases h : n < 64
  · revert h
    revert n
    decide
  · have hb : b64Char n = '/' := by
      unfold b64Char
      rw [if_neg (by omega), if_neg (by omega), if_neg (by omega), if_neg (by omega)]
    rw [hb]
    decide

theorem b64UrlEncode_ne_dot : ∀ bs : List Nat, ∀ c ∈ b64UrlEncode bs, c ≠ '.'
  | [] => by simp [b64UrlEncode]
  | [a] => by
    simp only [b64UrlEncode, List.mem_cons, List.not_mem_nil, or_false]
    rintro c (rfl | rfl) <;> exact urlify_b64Char_ne_dot _
  | [a, b] => by
    simp only [b64UrlEncode, List.mem_cons, List.not_mem_nil, or_false]
    rintro c (rfl | rfl | rfl) <;> exact urlify_b64Char_ne_dot _
  | a :: b :: c :: rest => by
    intro x hx
    simp only [b64UrlEncode, List.mem_cons] at hx
    rcases hx with rfl | rfl | rfl | rfl | hx
    · exact urlify_b64Char_ne_dot _
    · exact urlify_b64Char_ne_dot _
    · exact urlify_b64Char_ne_dot _
    · exact urlify_b64Char_ne_dot _
    · exact b64UrlEncode_ne_dot rest x hx

theorem bufferToBase64Url_ne_dot (bs : List Nat) : ∀ c ∈ bufferToBase64Url bs, c ≠ '.' := by
  rw [bufferToBase64Url_eq_b64UrlEncode]
  exact b64UrlEncode_ne_dot bs

/-- Algorithm names of the allow-list. -/
def hs256 : List Char := ['H', 'S', '2', '5', '6']

/-- The second member of the default allow-list. -/
def hs512 : List Char := ['H', 'S', '5', '1', '2']

/-- Options of jwtVerify: an optional algorithms allow-list; none models a
caller that does not supply the key. -/
structure JWTVerifyOptions where
  algorithms : Option (List (List Char)) := none

/-- Effective allow-list after the option spread in jwtVerify: the default
pair when the caller supplied none. -/
def algsOf (o : JWTVerifyOptions) : List (List Char) := o.algorithms.getD [hs256, hs512]

/-- Algorithm test of jwtVerify: the header's alg member must be a string
contained in the allow-list; a missing or non-string alg never passes,
and nothing from the header ever enters the list itself. -/
def headerAlgOk (header : Json) (algs : List (List Char)) : Bool :=
  match jsLookup header ['a', 'l', 'g'] with
  | some (.str a) => decide (a ∈ algs)
  | _ => false

/-- The header's alg string as handed to verifySignature. -/
def headerAlgStr (header : Json) : List Char :=
  match jsLookup header ['a', 'l', 'g'] with
  | some (.str a) => a
  | _ => []

/-- base64UrlDecode of src/utils/jwt.ts at string level: decode the
base64url and read the bytes as UTF-8 (TextDecoder and buffer.toString
substitute on invalid sequences rather than fail). -/
def base64UrlDecode (s : List Char) : Option (List Char) :=
  (base64UrlToBuffer s).map utf8DecodeLossy

/-- verifySignature of src/utils/jwt.ts: recompute the HMAC over the data,
decode the supplied signature segment, and compare both with the
backend's constant-time equality.  A decode exception (the browser atob
throw on a malformed segment) surfaces as the malformed-token kind. -/
def verifySignature (hmac : HmacFn) (data signatureB64 secret alg : List Char) :
    Except JWTError Bool :=
  let expected := hmac alg secret data
  match base64UrlToBuffer signatureB64 with
  | none => .error .malformedToken
  | some actual => .ok (timingSafeEqual actual expected)

/-- JavaScript truthiness of a parsed JSON value. -/
def jsTruthy : Json → Bool
  | .null => false
  | .jbool b => b
  | .num m _ => decide (m ≠ 0)
  | .str s => decide (s ≠ [])
  | .arr _ => true
  | .obj _ => true

/-- Numeric coercion of a JSON value for the temporal comparisons; none
models NaN, whose comparisons are always false.  Strings coerce through
the positional-number parse; the remainder of the JavaScript Number
grammar is not exercised by any temporal claim. -/
def jsToNumber : Json → Option (Int × Nat)
  | .null => some (0, 0)
  | .jbool true => some (1, 0)
  | .jbool false => some (0, 0)
  | .num m e => some (m, e)
  | .str s =>
    if s = [] then some (0, 0)
    else
      match parseNumber s with
      | some (.num m e, []) => some (m, e)
      | _ => none
  | .arr _ => none
  | .obj _ => none

/-- Guard of the exp check in jwtVerify: payload.exp is truthy and
Date.now() is at or past exp times 1000.  The comparison of now with the
decimal m / 10 ^ e times 1000 is cleared of the denominator. -/
def expTriggered (payload : Json) (now : Int) : Bool :=
  match jsLookup payload ['e', 'x', 'p'] with
  | some v =>
    jsTruthy v &&
      (match jsToNumber v with
       | some (m, e) => decide (now * (10 : Int) ^ e ≥ 1000 * m)
       | none => false)
  | none => false

/-- Guard of the nbf check in jwtVerify: payload.nbf is truthy and
Date.now() is before nbf times 1000. -/
def nbfTriggered (payload : Json) (now : Int) : Bool :=
  match jsLookup payload ['n', 'b', 'f'] with
  | some v =>
    jsTruthy v &&
      (match jsToNumber v with
       | some (m, e) => decide (now * (10 : Int) ^ e < 1000 * m)
       | none => false)
  | none => false

/-- jwtVerify of src/utils/jwt.ts: split into exactly three segments,
decode and parse the header, check the algorithm against the allow-list,
verify the signature, decode and parse the payload, check exp then nbf,
and return the payload.  The stages run in exactly this order; now is
Date.now() in milliseconds. -/
def jwtVerify (hmac : HmacFn) (token secret : List Char) (options : JWTVerifyOptions)
    (now : Int) : Except JWTError Json :=
  match splitDots token with
  | [headerB64, payloadB64, signatureB64] =>
    match base64UrlDecode headerB64 with
    | none => .error .malformedToken
    | some headerStr =>
      match jsonParse headerStr with
      | none => .error .malformedToken
      | some header =>
        if headerAlgOk header (algsOf options) then
          match verifySignature hmac (headerB64 ++ '.' :: payloadB64) signatureB64 secret
              (headerAlgStr header) with
          | .error e => .error e
          | .ok false => .error .invalidSignature
          | .ok true =>
            match base64UrlDecode payloadB64 with
            | none => .error .malformedToken
            | some payloadStr =>
              match jsonParse payloadStr with
              | none => .error .malformedToken
              | some payload =>
                if expTriggered payload now then .error .expired
                else if nbfTriggered payload now then .error .notYetValid
                else .ok payload
        else .error .unsupportedAlgorithm
  | _ => .error .malformedToken

/-- decodeJWT of src/utils/jwt.ts: the same three-segment check, then
decode and parse header and payload without touching the signature
segment. -/
def decodeJWT (token : List Char) : Except JWTError (Json × Json) :=
  match splitDots token with
  | [headerB64, payloadB64, _] =>
    match base64UrlDecode headerB64 with
    | none => .error .malformedToken
    | some hs =>
      match jsonParse hs with
      | none => .error .malformedToken
      | some header =>
        match base64UrlDecode payloadB64 with
        | none => .error .malformedToken
        | some ps =>
          match jsonParse ps with
          | none => .error .malformedToken
          | some payload => .ok (header, payload)
  | _ => .error .malformedToken

/-- Modelled from the spec: the minimal JWT header text naming the
algorithm, the serialization of the one-member alg object (the algorithm
names in play contain nothing needing escapes). -/
def jwtHeaderStr (alg : List Char) : List Char :=
  '\x7b' :: '"' :: 'a' :: 'l' :: 'g' :: '"' :: ':' :: '"' :: alg ++ '"' :: '\x7d' :: []

/-- The header text is the JSON serialization of the alg object for the
two algorithms of the allow-list. -/
theorem jwtHeaderStr_eq_stringify :
    jwtHeaderStr hs256 = stringifyJson (.obj [(['a', 'l', 'g'], .str hs256)]) ∧
    jwtHeaderStr hs512 = stringifyJson (.obj [(['a', 'l', 'g'], .str hs512)]) := by
  constructor <;>
    simp [jwtHeaderStr, stringifyJson, stringifyMembers, stringifyString, concatMap,
      escapeChar, hs256, hs512]

/-- Modelled from the spec: the repository ships no signer, and spec
sections 3 and 4.1 define the compact JWT wire format the verifier
consumes.  This is the signing-input of such a token: the base64url of
the UTF-8 of the minimal header naming alg, a dot, and the base64url of
the UTF-8 of the payload text. -/
def jwtSignData (alg payloadStr : List Char) : List Char :=
  bufferToBase64Url (utf8Encode (jwtHeaderStr alg)) ++
    '.' :: bufferToBase64Url (utf8Encode payloadStr)

/-- Modelled from the spec: a compact JWT over the given payload text,
signed with the given MAC function and secret. -/
def jwtSign (hmac : HmacFn) (alg secret payloadStr : List Char) : List Char :=
  jwtSignData alg payloadStr ++
    '.' :: bufferToBase64Url (hmac alg secret (jwtSignData alg payloadStr))

/-- Concrete injective MAC instantiating the abstract HMAC parameter in
witnesses: an unambiguous framing of algorithm, key and data.  Byte 255
never occurs in UTF-8 output, so the framing is unambiguous; what matters
for the witnesses is only that distinct keys give distinct outputs. -/
def toyHmac : HmacFn := fun alg key data =>
  (if alg = hs256 then 0 else 1) :: utf8Encode key ++ 255 :: utf8Encode data

/-- String-level round trip through base64url and UTF-8. -/
theorem base64UrlDecode_encode (s : List Char) :
    base64UrlDecode (bufferToBase64Url (utf8Encode s)) = some s := by
  unfold base64UrlDecode
  rw [base64UrlToBuffer_bufferToBase64Url _ (utf8Encode_lt_256 s)]
  simp [utf8DecodeLossy_utf8Encode]

/-- Segments of a signed token. -/
theorem splitDots_jwtSign (hmac : HmacFn) (alg secret payloadStr : List Char) :
    splitDots (jwtSign hmac alg secret payloadStr) =
      [bufferToBase64Url (utf8Encode (jwtHeaderStr alg)),
       bufferToBase64Url (utf8Encode payloadStr),
       bufferToBase64Url (hmac alg secret (jwtSignData alg payloadStr))] := by
  show splitDots
      ((bufferToBase64Url (utf8Encode (jwtHeaderStr alg)) ++
        '.' :: bufferToBase64Url (utf8Encode payloadStr)) ++
        '.' :: bufferToBase64Url (hmac alg secret (jwtSignData alg payloadStr))) = _
  rw [List.append_assoc]
  simp only [List.cons_append]
  rw [splitDots_append _ _ (bufferToBase64Url_ne_dot _)]
  rw [splitDots_append _ _ (bufferToBase64Url_ne_dot _)]
  rw [splitDots_no_dot _ (bufferToBase64Url_ne_dot _)]

theorem jsonParse_jwtHeaderStr256 :
    jsonParse (jwtHeaderStr hs256) = some (.obj [(['a', 'l', 'g'], .str hs256)]) := rfl

theorem jsonParse_jwtHeaderStr512 :
    jsonParse (jwtHeaderStr hs512) = some (.obj [(['a', 'l', 'g'], .str hs512)]) := rfl

/-- Evaluation of jwtVerify on a well-signed token under the default
options: the outcome is decided exactly by the temporal guards on the
parsed payload. -/
theorem jwtVerify_jwtSign_default (hmac : HmacFn) (alg secret payloadStr : List Char)
    (pl : Json) (now : Int)
    (halg : alg = hs256 ∨ alg = hs512)
    (hbytes : ∀ b ∈ hmac alg secret (jwtSignData alg payloadStr), b < 256)
    (hparse : jsonParse payloadStr = some pl) :
    jwtVerify hmac (jwtSign hmac alg secret payloadStr) secret {} now =
      (if expTriggered pl now then .error .expired
       else if nbfTriggered pl now then .error .notYetValid
       else .ok pl) := by
  have hsplit := splitDots_jwtSign hmac alg secret payloadStr
  have hsig := base64UrlToBuffer_bufferToBase64Url _ hbytes
  unfold jwtVerify
  simp only [hsplit]
  simp only [base64UrlDecode_encode, hparse]
  rcases halg with rfl | rfl
  · have hdata : bufferToBase64Url (utf8Encode (jwtHeaderStr hs256)) ++
        '.' :: bufferToBase64Url (utf8Encode payloadStr) = jwtSignData hs256 payloadStr := rfl
    simp only [jsonParse_jwtHeaderStr256, hdata,
      show headerAlgOk (.obj [(['a', 'l', 'g'], .str hs256)])
        (algsOf { algorithms := none }) = true from rfl, if_true]
    simp only [verifySignature, hsig,
      show headerAlgStr (.obj [(['a', 'l', 'g'], .str hs256)]) = hs256 from rfl,
      timingSafeEqual_self]
  · have hdata : bufferToBase64Url (utf8Encode (jwtHeaderStr hs512)) ++
        '.' :: bufferToBase64Url (utf8Encode payloadStr) = jwtSignData hs512 payloadStr := rfl
    simp only [jsonParse_jwtHeaderStr512, hdata,
      show headerAlgOk (.obj [(['a', 'l', 'g'], .str hs512)])
        (algsOf { algorithms := none }) = true from rfl, if_true]
    simp only [verifySignature, hsig,
      show headerAlgStr (.obj [(['a', 'l', 'g'], .str hs512)]) = hs512 from rfl,
      timingSafeEqual_self]

/-- Evaluation of jwtVerify on a well-signed token presented with a secret
whose MAC over the signing input differs: the invalid-signature failure,
regardless of the payload. -/
theorem jwtVerify_jwtSign_wrongSecret (hmac : HmacFn) (alg secret secret2 payloadStr : List Char)
    (now : Int)
    (halg : alg = hs256 ∨ alg = hs512)
    (hbytes : ∀ b ∈ hmac alg secret (jwtSignData alg payloadStr), b < 256)
    (hdiff : hmac alg secret2 (jwtSignData alg payloadStr) ≠
      hmac alg secret (jwtSignData alg payloadStr)) :
    jwtVerify hmac (jwtSign hmac alg secret payloadStr) secret2 {} now =
      .error .invalidSignature := by
  have hsplit := splitDots_jwtSign hmac alg secret payloadStr
  have hsig := base64UrlToBuffer_bufferToBase64Url _ hbytes
  have hne := timingSafeEqual_ne _ _ (fun he => hdiff he.symm)
  unfold jwtVerify
  simp only [hsplit]
  simp only [base64UrlDecode_encode]
  rcases halg with rfl | rfl
  · have hdata : bufferToBase64Url (utf8Encode (jwtHeaderStr hs256)) ++
        '.' :: bufferToBase64Url (utf8Encode payloadStr) = jwtSignData hs256 payloadStr := rfl
    simp only [jsonParse_jwtHeaderStr256, hdata,
      show headerAlgOk (.obj [(['a', 'l', 'g'], .str hs256)])
        (algsOf { algorithms := none }) = true from rfl, if_true]
    simp only [verifySignature, hsig,
      show headerAlgStr (.obj [(['a', 'l', 'g'], .str hs256)]) = hs256 from rfl, hne]
  · have hdata : bufferToBase64Url (utf8Encode (jwtHeaderStr hs512)) ++
        '.' :: bufferToBase64Url (utf8Encode payloadStr) = jwtSignData hs512 payloadStr := rfl
    simp only [jsonParse_jwtHeaderStr512, hdata,
      show headerAlgOk (.obj [(['a', 'l', 'g'], .str hs512)])
        (algsOf { algorithms := none }) = true from rfl, if_true]
    simp only [verifySignature, hsig,
      show headerAlgStr (.obj [(['a', 'l', 'g'], .str hs512)]) = hs512 from rfl, hne]

/-! Section 7: the payment facade (src/dist/index.js). -/

/-- JavaScript number as seen by the facade's validation: an exact finite
decimal or one of the non-finite values. -/
inductive JSNum where
  | fin (m : Int) (e : Nat)
  | nan
  | inf
  | ninf
deriving DecidableEq

/-- isNaN after the Number coercion of an already numeric total. -/
def jsIsNaN : JSNum → Bool
  | .nan => true
  | _ => false

/-- JSON value of a number field: JSON.stringify serializes the non-finite
numbers as null. -/
def jsNumToJson : JSNum → Json
  | .fin m e => .num m e
  | _ => .null

/-- Caller-supplied customer fields of PaymentURLOptions; each field may
be absent. -/
structure PartialCustomer where
  first_name : Option (List Char) := none
  last_name : Option (List Char) := none
  email : Option (List Char) := none
  phone : Option (List Char) := none

/-- PaymentURLOptions of src/dist/index.js. -/
structure PaymentURLOptions where
  username : List Char := []
  total : Option JSNum := none
  currency_code : Option (List Char) := none
  title : Option (List Char) := none
  reference_id : Option (List Char) := none
  customer : Option PartialCustomer := none
  payment_link_id : Option (List Char) := none

def totalKey : List Char := ['t', 'o', 't', 'a', 'l']

def currencyKey : List Char := ['c', 'u', 'r', 'r', 'e', 'n', 'c', 'y', '_', 'c', 'o', 'd', 'e']

def titleKey : List Char := ['t', 'i', 't', 'l', 'e']

def refKey : List Char := ['r', 'e', 'f', 'e', 'r', 'e', 'n', 'c', 'e', '_', 'i', 'd']

def custKey : List Char := ['c', 'u', 's', 't', 'o', 'm', 'e', 'r']

def fnKey : List Char := ['f', 'i', 'r', 's', 't', '_', 'n', 'a', 'm', 'e']

def lnKey : List Char := ['l', 'a', 's', 't', '_', 'n', 'a', 'm', 'e']

def emKey : List Char := ['e', 'm', 'a', 'i', 'l']

def phKey : List Char := ['p', 'h', 'o', 'n', 'e']

def jmdStr : List Char := ['J', 'M', 'D']

def paymentToStr : List Char := ['P', 'a', 'y', 'm', 'e', 'n', 't', ' ', 't', 'o', ' ']

/-- Object.assign of the caller's customer over the zero-valued default:
present fields win, absent fields keep the empty string, and the four
fields keep the default's key order. -/
def mergeCustomer (c : PartialCustomer) : Json :=
  .obj [(fnKey, .str (c.first_name.getD [])), (lnKey, .str (c.last_name.getD [])),
        (emKey, .str (c.email.getD [])), (phKey, .str (c.phone.getD []))]

/-- Failure markers of the two validation throws. -/
inductive PaymentError where
  | missingUsername
  | invalidTotal
deriving DecidableEq

/-- validatePaymentOptions of src/dist/index.js: throw when username is
falsy, or when total is undefined, null, or NaN after Number coercion. -/
def validatePaymentOptions (o : PaymentURLOptions) : Except PaymentError Unit :=
  if o.username = [] then .error .missingUsername
  else
    match o.total with
    | none => .error .invalidTotal
    | some t => if jsIsNaN t then .error .invalidTotal else .ok ()

/-- Base-36 digit test: the characters Number.toString(36) emits. -/
def isBase36Digit (c : Char) : Bool :=
  (decide ('0' ≤ c ∧ c ≤ '9')) || (decide ('a' ≤ c ∧ c ≤ 'z'))

/-- Modelled from the platform contract of the spec: Math.random() returns
a dyadic rational in the interval from zero inclusive to one exclusive,
and toString(36) renders zero as the single digit 0 and every other such
value as 0 dot followed by finitely many base-36 digits with a nonzero
last digit (dyadic rationals have terminating base-36 expansions). -/
def IsRandomNumeral (s : List Char) : Prop :=
  s = ['0'] ∨ ∃ ds : List Char, s = '0' :: '.' :: ds ∧ ds ≠ [] ∧
    (∀ c ∈ ds, isBase36Digit c = true) ∧ ds.getLast? ≠ some '0'

/-- substring(2, 15) of JavaScript on the character-list model. -/
def jsSubstring2_15 (s : List Char) : List Char := (s.drop 2).take 13

/-- generateRandomId of src/dist/index.js applied to the rendered outputs
of the two draws of Math.random(): each draw's rendering is cut with
substring(2, 15) and the two pieces concatenated. -/
def generateRandomId (r1 r2 : List Char) : List Char :=
  jsSubstring2_15 r1 ++ jsSubstring2_15 r2

/-- encodeJSONToB64 of src/dist/index.js: JSON.stringify, then base64 over
the UTF-8 bytes. -/
def encodeJSONToB64 (v : Json) : List Char :=
  b64EncodeChunks (utf8Encode (stringifyJson v))

/-- decodeB64JSON of src/dist/index.js, browser path: atob, strict UTF-8
read (the decodeURIComponent-escape idiom throws on malformed UTF-8),
JSON.parse; every failure is caught and undefined returned, modelled as
none.  The node path reads the base64 leniently but agrees on every valid
encoding. -/
def decodeB64JSON (encoded : List Char) : Option Json :=
  (atobChunks encoded).bind fun bytes =>
  (utf8DecodeStrict bytes).bind fun jsonStr =>
  jsonParse jsonStr

/-- Unreserved characters of encodeURIComponent. -/
def isURIUnreserved (c : Char) : Bool :=
  (decide ('A' ≤ c ∧ c ≤ 'Z')) || (decide ('a' ≤ c ∧ c ≤ 'z')) ||
  (decide ('0' ≤ c ∧ c ≤ '9')) || (c == '-') || (c == '_') || (c == '.') || (c == '!') ||
  (c == '~') || (c == '*') || (c == Char.ofNat 39) || (c == '(') || (c == ')')

/-- Uppercase hexadecimal digit character. -/
def hexCharUpper (n : Nat) : Char :=
  if n < 10 then Char.ofNat (48 + n) else Char.ofNat (55 + n)

/-- encodeURIComponent: unreserved characters pass through, every other
character is percent-encoded byte by byte from its UTF-8 form. -/
def encodeURIComponent (s : List Char) : List Char :=
  concatMap (fun c =>
    if isURIUnreserved c then [c]
    else concatMap (fun b => ['%', hexCharUpper (b / 16), hexCharUpper (b % 16)])
      (utf8EncodeChar c)) s

/-- Base urls of the facade constructor, by environment mode. -/
def inkressBaseUrl (live : Bool) : List Char :=
  if live then "https://inkress.com/api/v1".data else "https://dev.inkress.com/api/v1".data

/-- String.replace with a string pattern: the first occurrence only. -/
def replaceFirst (pat rep : List Char) : List Char → List Char
  | [] => []
  | c :: rest =>
    if pat.isPrefixOf (c :: rest) then rep ++ (c :: rest).drop pat.length
    else c :: replaceFirst pat rep rest

def apiV1Str : List Char := ['/', 'a', 'p', 'i', '/', 'v', '1']

def merchantsStr : List Char := "/merchants/".data

def orderPathStr : List Char := "/order?link_token=".data

def orderTokenStr : List Char := "&order_token=".data

/-- Order data of createPaymentUrl after defaults and the customer merge,
keys in source order: total, currency_code, title, reference_id,
customer.  The randomId argument stands for the generateRandomId() draw
the source takes when reference_id is absent. -/
def orderDataJson (o : PaymentURLOptions) (randomId : List Char) : Json :=
  .obj [(totalKey, jsNumToJson (o.total.getD .nan)),
        (currencyKey, .str (o.currency_code.getD jmdStr)),
        (titleKey, .str (o.title.getD (paymentToStr ++ o.username))),
        (refKey, .str (o.reference_id.getD randomId)),
        (custKey, mergeCustomer (o.customer.getD {}))]

/-- createPaymentUrl of src/dist/index.js: validate, apply the defaults,
build the order data, encode the order token, and assemble the url on the
base url with its api path segment stripped. -/
def createPaymentUrl (baseUrl : List Char) (o : PaymentURLOptions) (randomId : List Char) :
    Except PaymentError (List Char) :=
  match validatePaymentOptions o with
  | .error e => .error e
  | .ok _ =>
    .ok (replaceFirst apiV1Str [] baseUrl ++ merchantsStr ++ encodeURIComponent o.username ++
      orderPathStr ++ (o.payment_link_id.getD []) ++ orderTokenStr ++
      encodeJSONToB64 (orderDataJson o randomId))

/-- verifyJWT of the awaited facade copy (src/dist/index.js lines 283 to
294): jwtVerify is awaited inside try, every failure is caught and null
returned. -/
def verifyJWTAwait (hmac : HmacFn) (token secret : List Char) (options : JWTVerifyOptions)
    (now : Int) : Option Json :=
  (jwtVerify hmac token secret options now).toOption

/-- verifyJWT of the first facade copy (src/dist/index.js lines 49 to 58):
the asynchronous jwtVerify is called without await inside try, so the
catch never fires and the rejection of the returned promise reaches the
caller: the returned computation is the verification outcome itself,
failures included, never the null the documentation promises. -/
def verifyJWTNoAwait (hmac : HmacFn) (token secret : List Char) (now : Int) :
    Except JWTError Json :=
  jwtVerify hmac token secret {} now

/-! Section 8: parse of serialized order data.

The round trip of decodeB64JSON over encodeJSONToB64, claim-relevant for
the order token, reduces to parsing the serialization of the order-data
object; the lemmas here step the parser through a serialized object whose
member values are strings, positional numbers, or one level of nested
object of strings. -/

theorem char_ne_of_toNat_ne (a b : Char) (h : a.toNat ≠ b.toNat) : a ≠ b :=
  fun he => h (congrArg Char.toNat he)

theorem skipWs_cons_of_not_ws (c : Char) (t : List Char) (h : isWsCh c = false) :
    skipWs (c :: t) = c :: t := by
  simp [skipWs, List.dropWhile_cons, h]

theorem digit_or_minus_facts (d : Char) (hd : d = '-' ∨ isDigitCh d = true) :
    isWsCh d = false ∧ d ≠ '"' ∧ d ≠ 'n' ∧ d ≠ 't' ∧ d ≠ 'f' ∧ d ≠ '[' ∧ d ≠ '\x7b' := by
  have htn : d.toNat = 45 ∨ (48 ≤ d.toNat ∧ d.toNat ≤ 57) := by
    rcases hd with rfl | hd
    · left
      rfl
    · right
      exact digit_toNat_of_isDigitCh d hd
  refine ⟨?_, ?_, ?_, ?_, ?_, ?_, ?_⟩
  · unfold isWsCh
    have h1 : (d == ' ') = false := by
      rw [beq_eq_false_iff_ne]
      exact char_ne_of_toNat_ne _ _ (by have hs : (' ').toNat = 32 := rfl; omega)
    have h2 : (d == '\n') = false := by
      rw [beq_eq_false_iff_ne]
      exact char_ne_of_toNat_ne _ _ (by have hs : ('\n').toNat = 10 := rfl; omega)
    have h3 : (d == '\r') = false := by
      rw [beq_eq_false_iff_ne]
      exact char_ne_of_toNat_ne _ _ (by have hs : ('\r').toNat = 13 := rfl; omega)
    have h4 : (d == '\t') = false := by
      rw [beq_eq_false_iff_ne]
      exact char_ne_of_toNat_ne _ _ (by have hs : ('\t').toNat = 9 := rfl; omega)
    rw [h1, h2, h3, h4]
    rfl
  · exact char_ne_of_toNat_ne _ _ (by have hs : ('"').toNat = 34 := rfl; omega)
  · exact char_ne_of_toNat_ne _ _ (by have hs : ('n').toNat = 110 := rfl; omega)
  · exact char_ne_of_toNat_ne _ _ (by have hs : ('t').toNat = 116 := rfl; omega)
  · exact char_ne_of_toNat_ne _ _ (by have hs : ('f').toNat = 102 := rfl; omega)
  · exact char_ne_of_toNat_ne _ _ (by have hs : ('[').toNat = 91 := rfl; omega)
  · exact char_ne_of_toNat_ne _ _ (by have hs : ('\x7b').toNat = 123 := rfl; omega)

theorem stringifyNum_head (m : Int) (e : Nat) :
    ∃ d t, stringifyNum m e = d :: t ∧ (d = '-' ∨ isDigitCh d = true) := by
  unfold stringifyNum
  by_cases hm : m < 0
  · rw [if_pos hm]
    exact ⟨'-', stringifyNumCore m.natAbs e, rfl, Or.inl rfl⟩
  · rw [if_neg hm]
    have hne := stringifyNumCore_ne_nil m.natAbs e
    have hd := stringifyNumCore_headD_digit m.natAbs e
    cases hc : stringifyNumCore m.natAbs e with
    | nil => exact absurd hc hne
    | cons d t =>
      rw [hc] at hd
      simp only [List.headD_cons] at hd
      exact ⟨d, t, rfl, Or.inr hd⟩

/-- Parse of a serialized string value. -/
theorem parseValue_str (fuel : Nat) (s rest : List Char) :
    parseValue (fuel + 1) (stringifyJson (.str s) ++ rest) = some (.str s, rest) := by
  have hform : stringifyJson (.str s) ++ rest =
      '"' :: (concatMap escapeChar s ++ '"' :: rest) := by
    show ('"' :: concatMap escapeChar s ++ ['"']) ++ rest = _
    simp
  rw [hform, parseValue]
  have hskip : skipWs ('"' :: (concatMap escapeChar s ++ '"' :: rest)) =
      '"' :: (concatMap escapeChar s ++ '"' :: rest) :=
    skipWs_cons_of_not_ws _ _ (by decide)
  simp only [hskip]
  rw [if_pos trivial]
  rw [parseStringBody_escape]
  rfl

/-- Parse of a serialized positional number value followed by anything not
continuing the numeral. -/
theorem parseValue_num (fuel : Nat) (m : Int) (e : Nat) (rest : List Char)
    (h1 : isDigitCh (rest.headD 'x') = false) (h2 : rest.headD 'x' ≠ '.') :
    parseValue (fuel + 1) (stringifyJson (.num m e) ++ rest) = some (.num m e, rest) := by
  obtain ⟨d, t, hdt, hd⟩ := stringifyNum_head m e
  have hform : stringifyJson (.num m e) ++ rest = d :: (t ++ rest) := by
    show stringifyNum m e ++ rest = _
    rw [hdt]
    rfl
  obtain ⟨hws, hne1, hne2, hne3, hne4, hne5, hne6⟩ := digit_or_minus_facts d hd
  rw [hform, parseValue]
  have hskip : skipWs (d :: (t ++ rest)) = d :: (t ++ rest) := skipWs_cons_of_not_ws _ _ hws
  simp only [hskip]
  rw [if_neg hne1, if_neg hne2, if_neg hne3, if_neg hne4, if_neg hne5, if_neg hne6]
  have hback : d :: (t ++ rest) = stringifyNum m e ++ rest := by
    rw [hdt]
    rfl
  rw [hback]
  exact parseNumber_stringifyNum m e rest h1 h2

/-- Parsability of a serialized value with at least the given fuel, the
remainder not continuing a numeral. -/
def ValueParsesGE (bound : Nat) (v : Json) : Prop :=
  ∀ (fuel : Nat) (rest : List Char), bound ≤ fuel →
    isDigitCh (rest.headD 'x') = false → rest.headD 'x' ≠ '.' →
    parseValue fuel (stringifyJson v ++ rest) = some (v, rest)

theorem valueParsesGE_mono (b b' : Nat) (v : Json) (h : b ≤ b') (hv : ValueParsesGE b v) :
    ValueParsesGE b' v :=
  fun fuel rest hf => hv fuel rest (by omega)

theorem valueParsesGE_str (s : List Char) : ValueParsesGE 1 (.str s) := by
  intro fuel rest hf _ _
  obtain ⟨g, rfl⟩ : ∃ g, fuel = g + 1 := ⟨fuel - 1, by omega⟩
  exact parseValue_str g s rest

theorem valueParsesGE_num (m : Int) (e : Nat) : ValueParsesGE 1 (.num m e) := by
  intro fuel rest hf h1 h2
  obtain ⟨g, rfl⟩ : ∃ g, fuel = g + 1 := ⟨fuel - 1, by omega⟩
  exact parseValue_num g m e rest h1 h2

theorem stringifyMembers_cons_form (k : List Char) (v : Json) :
    ∀ t : List (List Char × Json), ∃ tl : List Char,
      stringifyMembers ((k, v) :: t) = '"' :: tl
  | [] => by
    refine ⟨concatMap escapeChar k ++ ['"'] ++ ':' :: stringifyJson v, ?_⟩
    rw [stringifyMembers]
    show ('"' :: (concatMap escapeChar k ++ ['"'])) ++ ':' :: stringifyJson v = _
    simp
  | m :: t => by
    refine ⟨(concatMap escapeChar k ++ ['"'] ++ ':' :: stringifyJson v) ++
      ',' :: stringifyMembers (m :: t), ?_⟩
    rw [stringifyMembers]
    show (('"' :: (concatMap escapeChar k ++ ['"'])) ++ ':' :: stringifyJson v) ++
      ',' :: stringifyMembers (m :: t) = _
    simp

/-- Parse of a serialized nonempty member list followed by the closing
brace: the parser returns exactly the members. -/
theorem parseMembers_chain (bound : Nat) :
    ∀ (kvs : List (List Char × Json)) (fuel : Nat) (rest : List Char), kvs ≠ [] →
      bound + kvs.length + 1 ≤ fuel →
      (∀ kv ∈ kvs, ValueParsesGE bound kv.2) →
      parseMembers fuel (stringifyMembers kvs ++ '\x7d' :: rest) = some (kvs, rest)
  | [(k, v)], fuel, rest, _, hf, hvals => by
    obtain ⟨g, rfl⟩ : ∃ g, fuel = g + 1 := ⟨fuel - 1, by omega⟩
    have hform : stringifyMembers [(k, v)] ++ '\x7d' :: rest =
        '"' :: (concatMap escapeChar k ++ '"' :: (':' :: (stringifyJson v ++ '\x7d' :: rest))) := by
      rw [stringifyMembers]
      show (('"' :: (concatMap escapeChar k ++ ['"'])) ++ ':' :: stringifyJson v) ++
        '\x7d' :: rest = _
      simp
    rw [hform, parseMembers]
    have hskip : skipWs ('"' ::
        (concatMap escapeChar k ++ '"' :: (':' :: (stringifyJson v ++ '\x7d' :: rest)))) =
        '"' :: (concatMap escapeChar k ++ '"' :: (':' :: (stringifyJson v ++ '\x7d' :: rest))) :=
      skipWs_cons_of_not_ws _ _ (by decide)
    simp only [hskip, List.headD_cons, List.tail_cons]
    rw [if_pos trivial]
    rw [parseStringBody_escape, Option.some_bind]
    have hskip2 : skipWs (':' :: (stringifyJson v ++ '\x7d' :: rest)) =
        ':' :: (stringifyJson v ++ '\x7d' :: rest) := skipWs_cons_of_not_ws _ _ (by decide)
    simp only [hskip2, List.headD_cons, List.tail_cons]
    rw [if_pos trivial]
    rw [hvals (k, v) (by simp) g ('\x7d' :: rest) (by omega)
      (by rw [List.headD_cons]; decide) (by rw [List.headD_cons]; decide), Option.some_bind]
    have hskip3 : skipWs ('\x7d' :: rest) = '\x7d' :: rest :=
      skipWs_cons_of_not_ws _ _ (by decide)
    simp only [hskip3, List.headD_cons, List.tail_cons]
    rw [if_neg (by decide), if_pos trivial]
  | (k, v) :: m :: t, fuel, rest, _, hf, hvals => by
    obtain ⟨g, rfl⟩ : ∃ g, fuel = g + 1 := ⟨fuel - 1, by omega⟩
    have ih := parseMembers_chain bound (m :: t) g rest (by simp)
      (by simp only [List.length_cons] at hf ⊢; omega)
      (fun kv hkv => hvals kv (by simp [hkv]))
    have hform : stringifyMembers ((k, v) :: m :: t) ++ '\x7d' :: rest =
        '"' :: (concatMap escapeChar k ++ '"' ::
          (':' :: (stringifyJson v ++ ',' :: (stringifyMembers (m :: t) ++ '\x7d' :: rest)))) := by
      rw [stringifyMembers]
      show ((('"' :: (concatMap escapeChar k ++ ['"'])) ++ ':' :: stringifyJson v) ++
        ',' :: stringifyMembers (m :: t)) ++ '\x7d' :: rest = _
      simp
    rw [hform, parseMembers]
    have hskip : skipWs ('"' :: (concatMap escapeChar k ++ '"' ::
        (':' :: (stringifyJson v ++ ',' :: (stringifyMembers (m :: t) ++ '\x7d' :: rest))))) =
        '"' :: (concatMap escapeChar k ++ '"' ::
          (':' :: (stringifyJson v ++ ',' :: (stringifyMembers (m :: t) ++ '\x7d' :: rest)))) :=
      skipWs_cons_of_not_ws _ _ (by decide)
    simp only [hskip, List.headD_cons, List.tail_cons]
    rw [if_pos trivial]
    rw [parseStringBody_escape, Option.some_bind]
    have hskip2 : skipWs (':' :: (stringifyJson v ++ ',' ::
        (stringifyMembers (m :: t) ++ '\x7d' :: rest))) =
        ':' :: (stringifyJson v ++ ',' :: (stringifyMembers (m :: t) ++ '\x7d' :: rest)) :=
      skipWs_cons_of_not_ws _ _ (by decide)
    simp only [hskip2, List.headD_cons, List.tail_cons]
    rw [if_pos trivial]
    rw [hvals (k, v) (by simp) g (',' :: (stringifyMembers (m :: t) ++ '\x7d' :: rest))
      (by omega) (by rw [List.headD_cons]; decide) (by rw [List.headD_cons]; decide),
      Option.some_bind]
    have hskip3 : skipWs (',' :: (stringifyMembers (m :: t) ++ '\x7d' :: rest)) =
        ',' :: (stringifyMembers (m :: t) ++ '\x7d' :: rest) :=
      skipWs_cons_of_not_ws _ _ (by decide)
    simp only [hskip3, List.headD_cons, List.tail_cons]
    rw [if_pos trivial]
    rw [ih]
    rfl

/-- Parse of a serialized nonempty object. -/
theorem parseValue_objGen (bound : Nat) (kvs : List (List Char × Json)) (fuel : Nat)
    (rest : List Char) (hne : kvs ≠ []) (hf : bound + kvs.length + 2 ≤ fuel)
    (hvals : ∀ kv ∈ kvs, ValueParsesGE bound kv.2) :
    parseValue fuel (stringifyJson (.obj kvs) ++ rest) = some (.obj kvs, rest) := by
  obtain ⟨g, rfl⟩ : ∃ g, fuel = g + 1 := ⟨fuel - 1, by omega⟩
  have hform : stringifyJson (.obj kvs) ++ rest =
      '\x7b' :: (stringifyMembers kvs ++ '\x7d' :: rest) := by
    rw [stringifyJson]
    simp
  rw [hform, parseValue]
  have hskip : skipWs ('\x7b' :: (stringifyMembers kvs ++ '\x7d' :: rest)) =
      '\x7b' :: (stringifyMembers kvs ++ '\x7d' :: rest) :=
    skipWs_cons_of_not_ws _ _ (by decide)
  simp only [hskip]
  rw [if_neg (by decide), if_neg (by decide), if_neg (by decide), if_neg (by decide),
    if_neg (by decide), if_pos trivial]
  obtain ⟨k, v, t, rfl⟩ : ∃ k v t, kvs = (k, v) :: t := by
    cases kvs with
    | nil => exact absurd rfl hne
    | cons kv t => exact ⟨kv.1, kv.2, t, by simp⟩
  obtain ⟨tl, htl⟩ := stringifyMembers_cons_form k v t
  have hskip2 : skipWs (stringifyMembers ((k, v) :: t) ++ '\x7d' :: rest) =
      stringifyMembers ((k, v) :: t) ++ '\x7d' :: rest := by
    rw [htl]
    exact skipWs_cons_of_not_ws _ _ (by decide)
  have hheadD : (skipWs (stringifyMembers ((k, v) :: t) ++ '\x7d' :: rest)).headD 'x' = '"' := by
    rw [hskip2, htl]
    rfl
  rw [if_neg (by rw [hheadD]; decide)]
  rw [parseMembers_chain bound ((k, v) :: t) g rest (by simp)
    (by simp only [List.length_cons] at hf ⊢; omega) hvals]
  rfl

theorem valueParsesGE_customer (c : PartialCustomer) : ValueParsesGE 7 (mergeCustomer c) := by
  intro fuel rest hf h1 h2
  show parseValue fuel (stringifyJson (.obj [(fnKey, .str (c.first_name.getD [])),
    (lnKey, .str (c.last_name.getD [])), (emKey, .str (c.email.getD [])),
    (phKey, .str (c.phone.getD []))]) ++ rest) = some (.obj [(fnKey, .str (c.first_name.getD [])),
    (lnKey, .str (c.last_name.getD [])), (emKey, .str (c.email.getD [])),
    (phKey, .str (c.phone.getD []))], rest)
  apply parseValue_objGen 1 _ _ _ (by simp) (by simp; omega)
  intro kv hkv
  simp only [List.mem_cons, List.not_mem_nil, or_false] at hkv
  rcases hkv with h | h | h | h <;> (rw [h]; exact valueParsesGE_str _)

/-- Parse of the serialized order data. -/
theorem parseValue_orderData (o : PaymentURLOptions) (rid : List Char) (m : Int) (e : Nat)
    (hto : o.total = some (.fin m e)) (fuel : Nat) (hf : 14 ≤ fuel) (rest : List Char) :
    parseValue fuel (stringifyJson (orderDataJson o rid) ++ rest) =
      some (orderDataJson o rid, rest) := by
  unfold orderDataJson
  rw [hto]
  simp only [Option.getD_some, jsNumToJson]
  apply parseValue_objGen 7 _ _ _ (by simp) (by simp; omega)
  intro kv hkv
  simp only [List.mem_cons, List.not_mem_nil, or_false] at hkv
  rcases hkv with h | h | h | h | h
  · rw [h]
    exact valueParsesGE_mono 1 7 _ (by omega) (valueParsesGE_num m e)
  · rw [h]
    exact valueParsesGE_mono 1 7 _ (by omega) (valueParsesGE_str _)
  · rw [h]
    exact valueParsesGE_mono 1 7 _ (by omega) (valueParsesGE_str _)
  · rw [h]
    exact valueParsesGE_mono 1 7 _ (by omega) (valueParsesGE_str _)
  · rw [h]
    exact valueParsesGE_customer _

theorem stringify_orderData_length (o : PaymentURLOptions) (rid : List Char) :
    6 ≤ (stringifyJson (orderDataJson o rid)).length := by
  unfold orderDataJson
  rw [stringifyJson]
  simp [stringifyMembers, stringifyString, List.length_append]
  omega

/-- JSON.parse of the stringified order data returns the order data. -/
theorem jsonParse_stringify_orderData (o : PaymentURLOptions) (rid : List Char) (m : Int)
    (e : Nat) (hto : o.total = some (.fin m e)) :
    jsonParse (stringifyJson (orderDataJson o rid)) = some (orderDataJson o rid) := by
  unfold jsonParse
  have hlen := stringify_orderData_length o rid
  have hp := parseValue_orderData o rid m e hto
    (2 * (stringifyJson (orderDataJson o rid)).length + 2) (by omega) []
  rw [List.append_nil] at hp
  rw [hp, Option.some_bind]
  rfl

/-- The order token decodes back to exactly the order data. -/
theorem decodeB64JSON_orderToken (o : PaymentURLOptions) (rid : List Char) (m : Int) (e : Nat)
    (hto : o.total = some (.fin m e)) :
    decodeB64JSON (encodeJSONToB64 (orderDataJson o rid)) = some (orderDataJson o rid) := by
  unfold decodeB64JSON encodeJSONToB64
  rw [atobChunks_b64EncodeChunks _ (utf8Encode_lt_256 _), Option.some_bind,
    utf8DecodeStrict_utf8Encode, Option.some_bind, jsonParse_stringify_orderData o rid m e hto]

/-! Section 9: helper lemmas for the claim theorems. -/

theorem tseLoop_count : ∀ (ps : List (Nat × Nat)) (acc : Nat), (tseLoop ps acc).2 = ps.length
  | [], _ => rfl
  | p :: ps, acc => by
    show ((tseLoop ps (acc ||| (p.1 ^^^ p.2))).1, (tseLoop ps (acc ||| (p.1 ^^^ p.2))).2 + 1).2 = _
    simp [tseLoop_count ps (acc ||| (p.1 ^^^ p.2))]

theorem tseLoop_val : ∀ (ps : List (Nat × Nat)) (acc : Nat),
    (tseLoop ps acc).1 = (ps.map fun p => p.1 ^^^ p.2).foldl Nat.lor acc
  | [], _ => rfl
  | p :: ps, acc => by
    show ((tseLoop ps (acc ||| (p.1 ^^^ p.2))).1, (tseLoop ps (acc ||| (p.1 ^^^ p.2))).2 + 1).1 = _
    simp only [List.map_cons, List.foldl_cons]
    exact tseLoop_val ps (acc ||| (p.1 ^^^ p.2))

theorem zip_map_xor : ∀ a b : List Nat,
    ((a.zip b).map fun p => p.1 ^^^ p.2) = List.zipWith Nat.xor a b
  | [], _ => by simp
  | _ :: _, [] => by simp
  | x :: xs, y :: ys => by
    simp only [List.zip_cons_cons, List.map_cons, List.zipWith_cons_cons]
    rw [zip_map_xor xs ys]
    rfl

/-- Inversion of jwtVerify: a temporal failure can only come from the
corresponding temporal guard evaluated on the parsed payload. -/
theorem jwtVerify_temporal_inv (hmac : HmacFn) (token secret : List Char)
    (options : JWTVerifyOptions) (now : Int) (h p s : List Char) (pl : Json)
    (hsp : splitDots token = [h, p, s])
    (hpl : (base64UrlDecode p).bind jsonParse = some pl) :
    (jwtVerify hmac token secret options now = .error .expired → expTriggered pl now = true) ∧
    (jwtVerify hmac token secret options now = .error .notYetValid →
      nbfTriggered pl now = true) := by
  unfold jwtVerify
  simp only [hsp]
  rcases hd : base64UrlDecode h with _ | hs0
  · simp only [hd]
    exact ⟨(by intro hq; simp at hq), (by intro hq; simp at hq)⟩
  · simp only [hd]
    rcases hj : jsonParse hs0 with _ | hdr
    · simp only [hj]
      exact ⟨(by intro hq; simp at hq), (by intro hq; simp at hq)⟩
    · simp only [hj]
      by_cases ha : headerAlgOk hdr (algsOf options) = true
      · simp only [ha, if_true]
        unfold verifySignature
        rcases hb : base64UrlToBuffer s with _ | sig
        · simp only [hb]
          exact ⟨(by intro hq; simp at hq), (by intro hq; simp at hq)⟩
        · simp only [hb]
          rcases ht : timingSafeEqual sig (hmac (headerAlgStr hdr) secret (h ++ '.' :: p))
          · simp only [ht]
            exact ⟨(by intro hq; simp at hq), (by intro hq; simp at hq)⟩
          · simp only [ht]
            rcases hp2 : base64UrlDecode p with _ | ps
            · rw [hp2] at hpl
              cases hpl
            · rw [hp2, Option.some_bind] at hpl
              simp only [hp2, hpl]
              constructor
              · intro hq
                by_cases he : expTriggered pl now = true
                · exact he
                · rw [Bool.not_eq_true] at he
                  rw [he, if_neg (by simp)] at hq
                  rcases hn : nbfTriggered pl now <;> simp [hn] at hq
              · intro hq
                by_cases hn : nbfTriggered pl now = true
                · exact hn
                · rw [Bool.not_eq_true] at hn
                  rcases he : expTriggered pl now <;> simp [he, hn] at hq
      · rw [if_neg ha]
        exact ⟨(by intro hq; simp at hq), (by intro hq; simp at hq)⟩

/-- The cut each rendered draw contributes to generateRandomId: at most 13
characters, all base-36 digits. -/
theorem jsSub_facts (r : List Char) (h : IsRandomNumeral r) :
    (jsSubstring2_15 r).length ≤ 13 ∧ ∀ c ∈ jsSubstring2_15 r, isBase36Digit c = true := by
  rcases h with rfl | ⟨ds, rfl, _, hds, _⟩
  · exact ⟨by decide, by decide⟩
  · constructor
    · show (ds.take 13).length ≤ 13
      simp [List.length_take]
    · intro c hc
      exact hds c (List.mem_of_mem_take hc)

/-- The header text naming the null algorithm. -/
def noneAlg : List Char := ['n', 'o', 'n', 'e']

/-- Payload text carrying an exp claim of zero. -/
def expZeroStr : List Char :=
  '\x7b' :: '"' :: 'e' :: 'x' :: 'p' :: '"' :: ':' :: '0' :: '\x7d' :: []

/-- Payload text carrying an exp claim of two seconds past the epoch. -/
def expTwoStr : List Char :=
  '\x7b' :: '"' :: 'e' :: 'x' :: 'p' :: '"' :: ':' :: '2' :: '\x7d' :: []

/-- The end-to-end example input of the spec. -/
def exampleOptions : PaymentURLOptions :=
  { username := "acme".data, total := some (.fin 1505 1),
    currency_code := some "JMD".data, title := some "Order #1".data,
    reference_id := some "ref-1".data,
    customer := some { first_name := some "Jane".data } }

/-! Section 10: the claim theorems. -/

/-- C1: for every token whose header names an algorithm outside
options.algorithms (defaulting to HS256 and HS512 when the caller supplies
none), jwtVerify fails with the unsupported-algorithm error before any
signature computation or comparison: the outcome is the same for every MAC
function, and the allow-list consulted is algsOf options alone, never
widened by the header. -/
theorem C1_alg_allowlist (hmac : HmacFn) (token secret : List Char)
    (options : JWTVerifyOptions) (now : Int) (h p s : List Char) (header : Json)
    (hsp : splitDots token = [h, p, s])
    (hhdr : (base64UrlDecode h).bind jsonParse = some header)
    (halg : headerAlgOk header (algsOf options) = false) :
    jwtVerify hmac token secret options now = .error .unsupportedAlgorithm := by
  unfold jwtVerify
  simp only [hsp]
  rcases hd : base64UrlDecode h with _ | hs0
  · rw [hd] at hhdr
    cases hhdr
  · rw [hd, Option.some_bind] at hhdr
    simp only [hd, hhdr, halg]
    simp

/-- Witness for C1: a token over the header naming alg none, carrying a
signature segment valid for its own content, is rejected as unsupported. -/
theorem C1_witness :
    splitDots (jwtSign toyHmac noneAlg ['s'] ['1']) =
      [bufferToBase64Url (utf8Encode (jwtHeaderStr noneAlg)),
       bufferToBase64Url (utf8Encode ['1']),
       bufferToBase64Url (toyHmac noneAlg ['s'] (jwtSignData noneAlg ['1']))] ∧
    (base64UrlDecode (bufferToBase64Url (utf8Encode (jwtHeaderStr noneAlg)))).bind jsonParse =
      some (.obj [(['a', 'l', 'g'], .str noneAlg)]) ∧
    headerAlgOk (.obj [(['a', 'l', 'g'], .str noneAlg)]) (algsOf {}) = false ∧
    jwtVerify toyHmac (jwtSign toyHmac noneAlg ['s'] ['1']) ['s'] {} 0 =
      .error .unsupportedAlgorithm := by
  have hsp := splitDots_jwtSign toyHmac noneAlg ['s'] ['1']
  have hh : (base64UrlDecode (bufferToBase64Url (utf8Encode (jwtHeaderStr noneAlg)))).bind
      jsonParse = some (.obj [(['a', 'l', 'g'], .str noneAlg)]) := by
    rw [base64UrlDecode_encode, Option.some_bind]
    exact rfl
  exact ⟨hsp, hh, rfl, C1_alg_allowlist toyHmac _ ['s'] {} 0 _ _ _ _ hsp hh rfl⟩

/-- C2: a compact JWT signed with HS256 or HS512 under secret S verifies
under S to exactly the original payload (when its temporal guards are
clear), and under any secret whose MAC over the signing input differs it
fails with the invalid-signature error; the MAC-distinctness hypothesis is
the idealisation of distinct secrets. -/
theorem C2_sign_roundtrip (hmac : HmacFn) (alg secret secret2 payloadStr : List Char)
    (pl : Json) (now : Int)
    (halg : alg = hs256 ∨ alg = hs512)
    (hbytes : ∀ b ∈ hmac alg secret (jwtSignData alg payloadStr), b < 256)
    (hparse : jsonParse payloadStr = some pl)
    (hexp : expTriggered pl now = false)
    (hnbf : nbfTriggered pl now = false)
    (hdiff : hmac alg secret2 (jwtSignData alg payloadStr) ≠
      hmac alg secret (jwtSignData alg payloadStr)) :
    jwtVerify hmac (jwtSign hmac alg secret payloadStr) secret {} now = .ok pl ∧
    jwtVerify hmac (jwtSign hmac alg secret payloadStr) secret2 {} now =
      .error .invalidSignature := by
  refine ⟨?_, jwtVerify_jwtSign_wrongSecret hmac alg secret secret2 payloadStr now halg
    hbytes hdiff⟩
  rw [jwtVerify_jwtSign_default hmac alg secret payloadStr pl now halg hbytes hparse]
  rw [hexp, hnbf]
  simp

/-- Witness for C2: the empty-object payload signed with HS256 under the
toy MAC verifies under the signing secret and is rejected under another. -/
theorem C2_witness :
    jwtVerify toyHmac (jwtSign toyHmac hs256 ['s'] ('\x7b' :: '\x7d' :: [])) ['s'] {} 0 =
      .ok (.obj []) ∧
    jwtVerify toyHmac (jwtSign toyHmac hs256 ['s'] ('\x7b' :: '\x7d' :: [])) ['t'] {} 0 =
      .error .invalidSignature :=
  C2_sign_roundtrip toyHmac hs256 ['s'] ['t'] ('\x7b' :: '\x7d' :: []) (.obj []) 0
    (Or.inl rfl) (by decide) rfl rfl rfl (by decide)

/-- C3: the browser comparison returns false outright on a length
mismatch; on equal lengths it is true exactly for equal buffers and its
loop runs once per byte position whatever the contents, so no short
circuit on the first difference; the instrumented comparison computes the
same boolean, and the node backend agrees with the browser backend. -/
theorem C3_constant_time_compare (a b : List Nat) :
    (a.length ≠ b.length → timingSafeEqual a b = false ∧ (timingSafeEqualSteps a b).2 = 0) ∧
    (a.length = b.length → ((timingSafeEqual a b = true ↔ a = b) ∧
      (timingSafeEqualSteps a b).2 = a.length)) ∧
    (timingSafeEqualSteps a b).1 = timingSafeEqual a b ∧
    timingSafeEqualNode a b = timingSafeEqual a b := by
  refine ⟨?_, ?_, ?_, ?_⟩
  · intro h
    unfold timingSafeEqual timingSafeEqualSteps
    rw [if_pos h, if_pos h]
    exact ⟨rfl, rfl⟩
  · intro h
    refine ⟨timingSafeEqual_eq_iff a b h, ?_⟩
    unfold timingSafeEqualSteps
    rw [if_neg (by omega)]
    show (tseLoop (a.zip b) 0).2 = a.length
    rw [tseLoop_count]
    rw [List.length_zip]
    omega
  · by_cases h : a.length = b.length
    · unfold timingSafeEqual timingSafeEqualSteps
      rw [if_neg (by omega), if_neg (by omega)]
      show ((tseLoop (a.zip b) 0).1 == 0) = _
      rw [tseLoop_val, zip_map_xor]
    · unfold timingSafeEqual timingSafeEqualSteps
      rw [if_pos h, if_pos h]
  · by_cases h : a.length = b.length
    · unfold timingSafeEqualNode
      rw [if_neg (by omega)]
      by_cases he : a = b
      · rw [he, timingSafeEqual_self]
        simp
      · rw [timingSafeEqual_ne a b he]
        simp [he]
    · unfold timingSafeEqual timingSafeEqualNode
      rw [if_pos h, if_pos h]

/-- Witness for C3: on the equal-length buffers 1,2 and 1,3 the comparison
is characterised by equality and iterates once per byte. -/
theorem C3_witness :
    ([1, 2] : List Nat).length = [1, 3].length ∧
    (timingSafeEqual [1, 2] [1, 3] = true ↔ ([1, 2] : List Nat) = [1, 3]) ∧
    (timingSafeEqualSteps [1, 2] [1, 3]).2 = ([1, 2] : List Nat).length :=
  ⟨rfl, ((C3_constant_time_compare [1, 2] [1, 3]).2.1 rfl).1,
    ((C3_constant_time_compare [1, 2] [1, 3]).2.1 rfl).2⟩

/-- C4: with username set and a finite total, createPaymentUrl succeeds
deterministically with the url carrying the order token, and decoding
that token reproduces exactly the order-data object with its defaults
applied and its keys in the fixed order total, currency_code, title,
reference_id, customer. -/
theorem C4_order_token_roundtrip (baseUrl : List Char) (o : PaymentURLOptions)
    (rid : List Char) (m : Int) (e : Nat)
    (hu : o.username ≠ []) (hto : o.total = some (.fin m e)) :
    createPaymentUrl baseUrl o rid =
      .ok (replaceFirst apiV1Str [] baseUrl ++ merchantsStr ++
        encodeURIComponent o.username ++ orderPathStr ++ (o.payment_link_id.getD []) ++
        orderTokenStr ++ encodeJSONToB64 (orderDataJson o rid)) ∧
    decodeB64JSON (encodeJSONToB64 (orderDataJson o rid)) = some (orderDataJson o rid) := by
  refine ⟨?_, decodeB64JSON_orderToken o rid m e hto⟩
  unfold createPaymentUrl validatePaymentOptions
  rw [if_neg hu, hto]
  simp [jsIsNaN]

/-- Witness for C4: the end-to-end example of the spec; the decoded order
token is exactly the example object of the spec, keys in the listed
order. -/
theorem C4_witness :
    exampleOptions.username ≠ [] ∧ exampleOptions.total = some (.fin 1505 1) ∧
    createPaymentUrl (inkressBaseUrl true) exampleOptions ['r'] =
      .ok (replaceFirst apiV1Str [] (inkressBaseUrl true) ++ merchantsStr ++
        encodeURIComponent exampleOptions.username ++ orderPathStr ++
        (exampleOptions.payment_link_id.getD []) ++ orderTokenStr ++
        encodeJSONToB64 (orderDataJson exampleOptions ['r'])) ∧
    decodeB64JSON (encodeJSONToB64 (orderDataJson exampleOptions ['r'])) =
      some (.obj [(totalKey, .num 1505 1), (currencyKey, .str ['J', 'M', 'D']),
        (titleKey, .str "Order #1".data), (refKey, .str "ref-1".data),
        (custKey, .obj [(fnKey, .str "Jane".data), (lnKey, .str []), (emKey, .str []),
          (phKey, .str [])])]) := by
  have h := C4_order_token_roundtrip (inkressBaseUrl true) exampleOptions ['r'] 1505 1
    (by decide) rfl
  exact ⟨by decide, rfl, h.1, h.2⟩

/-- C5 (amended): when the payload carries a truthy numeric exp claim (a
nonzero number m over denominator 10 ^ e), a well-signed token fails with
the expired error exactly when the current millisecond clock is at or past
exp times 1000; in particular the boundary now equal to exp fails.  The
original claim's quantification over every exp claim is refuted by
C5_counterexample: exp zero is falsy and the guard is skipped. -/
theorem C5_expiry_boundary (hmac : HmacFn) (alg secret payloadStr : List Char) (pl : Json)
    (m : Int) (e : Nat) (now : Int)
    (halg : alg = hs256 ∨ alg = hs512)
    (hbytes : ∀ b ∈ hmac alg secret (jwtSignData alg payloadStr), b < 256)
    (hparse : jsonParse payloadStr = some pl)
    (hexp : jsLookup pl ['e', 'x', 'p'] = some (.num m e))
    (hm : m ≠ 0)
    (hnbf : nbfTriggered pl now = false) :
    (jwtVerify hmac (jwtSign hmac alg secret payloadStr) secret {} now = .error .expired ↔
      now * (10 : Int) ^ e ≥ 1000 * m) := by
  rw [jwtVerify_jwtSign_default hmac alg secret payloadStr pl now halg hbytes hparse]
  have hek : expTriggered pl now = decide (now * (10 : Int) ^ e ≥ 1000 * m) := by
    unfold expTriggered
    simp only [hexp]
    simp [jsTruthy, jsToNumber, hm]
  rw [hek]
  by_cases hp : now * (10 : Int) ^ e ≥ 1000 * m
  · simp [hp]
  · simp [hp, hnbf]

/-- Witness for C5: with exp two and the clock at the boundary two
thousand milliseconds, verification fails expired. -/
theorem C5_witness :
    jsonParse expTwoStr = some (.obj [(['e', 'x', 'p'], .num 2 0)]) ∧ (2 : Int) ≠ 0 ∧
    nbfTriggered (.obj [(['e', 'x', 'p'], .num 2 0)]) 2000 = false ∧
    (jwtVerify toyHmac (jwtSign toyHmac hs256 ['s'] expTwoStr) ['s'] {} 2000 =
        .error .expired ↔ (2000 : Int) * (10 : Int) ^ 0 ≥ 1000 * 2) :=
  ⟨rfl, by decide, rfl,
    C5_expiry_boundary toyHmac hs256 ['s'] expTwoStr (.obj [(['e', 'x', 'p'], .num 2 0)])
      2 0 2000 (Or.inl rfl) (by decide) rfl rfl (by decide) rfl⟩

/-- Counterexample to C5 as frozen: the payload carries the exp claim
zero, the clock at five thousand milliseconds is past it, yet
verification succeeds, because the guard tests truthiness and zero is
falsy. -/
theorem C5_counterexample :
    jsLookup (.obj [(['e', 'x', 'p'], .num 0 0)]) ['e', 'x', 'p'] = some (.num 0 0) ∧
    (5000 : Int) * (10 : Int) ^ 0 ≥ 1000 * 0 ∧
    jwtVerify toyHmac (jwtSign toyHmac hs256 ['s'] expZeroStr) ['s'] {} 5000 =
      .ok (.obj [(['e', 'x', 'p'], .num 0 0)]) := by
  refine ⟨rfl, by decide, ?_⟩
  rw [jwtVerify_jwtSign_default toyHmac hs256 ['s'] expZeroStr
    (.obj [(['e', 'x', 'p'], .num 0 0)]) 5000 (Or.inl rfl) (by decide) rfl]
  exact rfl

/-- C6 (amended): a wrong segment count fails both jwtVerify and decodeJWT
with the malformed-token error, and so does an undecodable or unparseable
header segment; an unparseable payload segment fails decodeJWT with the
malformed-token error always, but jwtVerify reaches its payload parse only
after the signature verifies.  The original claim's symmetry over every
segment is refuted by C6_counterexample: decodeJWT never touches the
signature segment. -/
theorem C6_malformed_token (hmac : HmacFn) (token secret : List Char)
    (options : JWTVerifyOptions) (now : Int) :
    ((splitDots token).length ≠ 3 →
      jwtVerify hmac token secret options now = .error .malformedToken ∧
      decodeJWT token = .error .malformedToken) ∧
    (∀ h p s, splitDots token = [h, p, s] →
      (((base64UrlDecode h).bind jsonParse = none →
        jwtVerify hmac token secret options now = .error .malformedToken ∧
        decodeJWT token = .error .malformedToken) ∧
       ((base64UrlDecode p).bind jsonParse = none →
        decodeJWT token = .error .malformedToken ∧
        ∀ hdr, (base64UrlDecode h).bind jsonParse = some hdr →
          headerAlgOk hdr (algsOf options) = true →
          verifySignature hmac (h ++ '.' :: p) s secret (headerAlgStr hdr) = .ok true →
          jwtVerify hmac token secret options now = .error .malformedToken))) := by
  constructor
  · intro hlen
    rcases hsp : splitDots token with _ | ⟨a, _ | ⟨b, _ | ⟨c, _ | ⟨d, t⟩⟩⟩⟩
    · exact absurd hsp (splitDots_ne_nil token)
    · exact ⟨by unfold jwtVerify; simp [hsp], by unfold decodeJWT; simp [hsp]⟩
    · exact ⟨by unfold jwtVerify; simp [hsp], by unfold decodeJWT; simp [hsp]⟩
    · rw [hsp] at hlen
      simp at hlen
    · exact ⟨by unfold jwtVerify; simp [hsp], by unfold decodeJWT; simp [hsp]⟩
  · intro h p s hsp
    constructor
    · intro hhdr
      rcases hd : base64UrlDecode h with _ | hs0
      · exact ⟨by unfold jwtVerify; simp [hsp, hd], by unfold decodeJWT; simp [hsp, hd]⟩
      · rw [hd, Option.some_bind] at hhdr
        exact ⟨by unfold jwtVerify; simp [hsp, hd, hhdr],
          by unfold decodeJWT; simp [hsp, hd, hhdr]⟩
    · intro hpl
      constructor
      · unfold decodeJWT
        simp only [hsp]
        rcases hd : base64UrlDecode h with _ | hs0
        · simp [hd]
        · simp only [hd]
          rcases hj : jsonParse hs0 with _ | hdr
          · simp [hj]
          · simp only [hj]
            rcases hp2 : base64UrlDecode p with _ | ps
            · simp [hp2]
            · rw [hp2, Option.some_bind] at hpl
              simp [hp2, hpl]
      · intro hdr hhdr halg hsig
        rcases hd : base64UrlDecode h with _ | hs0
        · rw [hd] at hhdr
          cases hhdr
        · rw [hd, Option.some_bind] at hhdr
          unfold jwtVerify
          simp only [hsp, hd, hhdr]
          rw [if_pos halg]
          simp only [hsig]
          rcases hp2 : base64UrlDecode p with _ | ps
          · simp [hp2]
          · rw [hp2, Option.some_bind] at hpl
            simp [hp2, hpl]

/-- Witness for C6: the one-segment token x is rejected as malformed by
both functions. -/
theorem C6_witness :
    (splitDots ['x']).length ≠ 3 ∧
    jwtVerify toyHmac ['x'] ['s'] {} 0 = .error .malformedToken ∧
    decodeJWT ['x'] = .error .malformedToken :=
  ⟨by decide, ((C6_malformed_token toyHmac ['x'] ['s'] {} 0).1 (by decide)).1,
    ((C6_malformed_token toyHmac ['x'] ['s'] {} 0).1 (by decide)).2⟩

/-- Counterexample to C6 as frozen: a token whose signature segment is not
valid base64url still decodes: decodeJWT ignores the third segment, so an
invalid segment does not force the malformed-token failure. -/
theorem C6_counterexample :
    base64UrlToBuffer ['!'] = none ∧
    decodeJWT ((bufferToBase64Url (utf8Encode (jwtHeaderStr hs256)) ++
        '.' :: bufferToBase64Url (utf8Encode ('\x7b' :: '\x7d' :: []))) ++ '.' :: ['!']) =
      .ok (.obj [(['a', 'l', 'g'], .str hs256)], .obj []) := by
  constructor
  · exact rfl
  · have hsp : splitDots ((bufferToBase64Url (utf8Encode (jwtHeaderStr hs256)) ++
        '.' :: bufferToBase64Url (utf8Encode ('\x7b' :: '\x7d' :: []))) ++ '.' :: ['!']) =
        [bufferToBase64Url (utf8Encode (jwtHeaderStr hs256)),
         bufferToBase64Url (utf8Encode ('\x7b' :: '\x7d' :: [])), ['!']] := by
      rw [List.append_assoc]
      simp only [List.cons_append]
      rw [splitDots_append _ _ (bufferToBase64Url_ne_dot _)]
      rw [splitDots_append _ _ (bufferToBase64Url_ne_dot _)]
      rw [splitDots_no_dot _ (by intro x hx; simp at hx; subst hx; decide)]
    unfold decodeJWT
    simp only [hsp, base64UrlDecode_encode, jsonParse_jwtHeaderStr256]
    exact rfl

/-- C7 (code bug): the facade copy at src/dist/index.js lines 49 to 58
calls the asynchronous jwtVerify without await inside its try, so its
catch never observes the rejection and every verification failure escapes
to the caller as the typed error instead of the documented null; the
awaited copy at lines 283 to 294 behaves as documented and returns null
on the same failure. -/
theorem C7_unawaited_rejection (hmac : HmacFn) (token secret : List Char) (now : Int)
    (e : JWTError) (hfail : jwtVerify hmac token secret {} now = .error e) :
    verifyJWTNoAwait hmac token secret now = .error e ∧
    verifyJWTAwait hmac token secret {} now = none := by
  constructor
  · unfold verifyJWTNoAwait
    exact hfail
  · unfold verifyJWTAwait
    rw [hfail]
    rfl

/-- Witness for C7: on the malformed one-segment token x the unawaited
copy surfaces the typed failure while the awaited copy returns null. -/
theorem C7_witness :
    jwtVerify toyHmac ['x'] ['s'] {} 0 = .error .malformedToken ∧
    verifyJWTNoAwait toyHmac ['x'] ['s'] 0 = .error .malformedToken ∧
    verifyJWTAwait toyHmac ['x'] ['s'] {} 0 = none :=
  ⟨rfl, (C7_unawaited_rejection toyHmac ['x'] ['s'] 0 .malformedToken rfl).1,
    (C7_unawaited_rejection toyHmac ['x'] ['s'] 0 .malformedToken rfl).2⟩

/-- C8 (amended): validation succeeds exactly when username is nonempty
and total is present and not NaN after Number coercion, and
createPaymentUrl returns a url exactly when validation succeeds.  The
original claim's finiteness requirement is refuted by C8_counterexample:
the infinities pass the isNaN test. -/
theorem C8_validate_fail_fast (baseUrl : List Char) (o : PaymentURLOptions)
    (rid : List Char) :
    (validatePaymentOptions o = .ok () ↔
      o.username ≠ [] ∧ ∃ t, o.total = some t ∧ jsIsNaN t = false) ∧
    ((∃ url, createPaymentUrl baseUrl o rid = .ok url) ↔
      validatePaymentOptions o = .ok ()) := by
  constructor
  · unfold validatePaymentOptions
    by_cases hu : o.username = []
    · simp [hu]
    · rw [if_neg hu]
      rcases ht : o.total with _ | t
      · simp [hu]
      · by_cases hn : jsIsNaN t = true
        · simp [hu, hn]
        · rw [Bool.not_eq_true] at hn
          simp [hu, hn]
  · unfold createPaymentUrl
    rcases hv : validatePaymentOptions o with e | u
    · simp
    · simp

/-- Witness for C8: a nonempty username with the finite total one
validates and yields a url. -/
theorem C8_witness :
    validatePaymentOptions { username := ['a'], total := some (JSNum.fin 1 0) } = .ok () ∧
    (∃ url, createPaymentUrl (inkressBaseUrl false)
      { username := ['a'], total := some (JSNum.fin 1 0) } ['r'] = .ok url) := by
  have h := C8_validate_fail_fast (inkressBaseUrl false)
    { username := ['a'], total := some (JSNum.fin 1 0) } ['r']
  exact ⟨rfl, h.2.mpr rfl⟩

/-- Counterexample to C8 as frozen: infinity is not a finite number, yet
validation accepts it, because isNaN of infinity is false. -/
theorem C8_counterexample :
    validatePaymentOptions { username := ['a'], total := some JSNum.inf } = .ok () ∧
    ∀ m e, (JSNum.inf : JSNum) ≠ .fin m e :=
  ⟨rfl, fun _ _ h => JSNum.noConfusion h⟩

/-- C9 (amended): for any two rendered draws of the random source,
generateRandomId returns at most 26 characters, all lowercase base-36
alphanumerics; no lower bound of 20 holds.  The original claim's lower
bound is refuted by C9_counterexample. -/
theorem C9_random_id_shape (r1 r2 : List Char)
    (h1 : IsRandomNumeral r1) (h2 : IsRandomNumeral r2) :
    (generateRandomId r1 r2).length ≤ 26 ∧
    ∀ c ∈ generateRandomId r1 r2, isBase36Digit c = true := by
  obtain ⟨hl1, hm1⟩ := jsSub_facts r1 h1
  obtain ⟨hl2, hm2⟩ := jsSub_facts r2 h2
  constructor
  · unfold generateRandomId
    rw [List.length_append]
    omega
  · intro c hc
    unfold generateRandomId at hc
    rcases List.mem_append.mp hc with h | h
    exacts [hm1 c h, hm2 c h]

/-- Witness for C9: the rendering 0.i of one half is a possible draw and
the resulting id is short, lowercase, alphanumeric. -/
theorem C9_witness :
    IsRandomNumeral ['0', '.', 'i'] ∧
    (generateRandomId ['0', '.', 'i'] ['0', '.', 'i']).length ≤ 26 ∧
    ∀ c ∈ generateRandomId ['0', '.', 'i'] ['0', '.', 'i'], isBase36Digit c = true := by
  have hn : IsRandomNumeral ['0', '.', 'i'] :=
    Or.inr ⟨['i'], rfl, by decide, by decide, by decide⟩
  exact ⟨hn, (C9_random_id_shape _ _ hn hn).1, (C9_random_id_shape _ _ hn hn).2⟩

/-- Counterexample to C9 as frozen: the draw one half renders as 0.i and
the id is two characters, under the claimed lower bound of twenty. -/
theorem C9_counterexample :
    IsRandomNumeral ['0', '.', 'i'] ∧
    generateRandomId ['0', '.', 'i'] ['0', '.', 'i'] = ['i', 'i'] ∧
    (generateRandomId ['0', '.', 'i'] ['0', '.', 'i']).length < 20 :=
  ⟨Or.inr ⟨['i'], rfl, by decide, by decide, by decide⟩, rfl, by decide⟩

/-- C10: a temporal claim of value zero is treated as absent: a payload
carrying exp zero never fails expired and one carrying nbf zero never
fails not-yet-valid, whatever the clock, because the guard tests the
claim's truthiness and the number zero is falsy. -/
theorem C10_zero_claims (hmac : HmacFn) (token secret : List Char)
    (options : JWTVerifyOptions) (now : Int) (h p s : List Char) (pl : Json) (e1 e2 : Nat)
    (hsp : splitDots token = [h, p, s])
    (hpl : (base64UrlDecode p).bind jsonParse = some pl) :
    (jsLookup pl ['e', 'x', 'p'] = some (.num 0 e1) →
      jwtVerify hmac token secret options now ≠ .error .expired) ∧
    (jsLookup pl ['n', 'b', 'f'] = some (.num 0 e2) →
      jwtVerify hmac token secret options now ≠ .error .notYetValid) := by
  have hinv := jwtVerify_temporal_inv hmac token secret options now h p s pl hsp hpl
  constructor
  · intro hx hq
    have hg := hinv.1 hq
    unfold expTriggered at hg
    simp only [hx] at hg
    simp [jsTruthy] at hg
  · intro hx hq
    have hg := hinv.2 hq
    unfold nbfTriggered at hg
    simp only [hx] at hg
    simp [jsTruthy] at hg

/-- Witness for C10: a well-signed token whose payload carries exp zero
does not fail expired even with the clock far past the epoch. -/
theorem C10_witness :
    splitDots (jwtSign toyHmac hs256 ['s'] expZeroStr) =
      [bufferToBase64Url (utf8Encode (jwtHeaderStr hs256)),
       bufferToBase64Url (utf8Encode expZeroStr),
       bufferToBase64Url (toyHmac hs256 ['s'] (jwtSignData hs256 expZeroStr))] ∧
    (base64UrlDecode (bufferToBase64Url (utf8Encode expZeroStr))).bind jsonParse =
      some (.obj [(['e', 'x', 'p'], .num 0 0)]) ∧
    jsLookup (.obj [(['e', 'x', 'p'], .num 0 0)]) ['e', 'x', 'p'] = some (.num 0 0) ∧
    jwtVerify toyHmac (jwtSign toyHmac hs256 ['s'] expZeroStr) ['s'] {} 99999 ≠
      .error .expired := by
  have hsp := splitDots_jwtSign toyHmac hs256 ['s'] expZeroStr
  have hpl : (base64UrlDecode (bufferToBase64Url (utf8Encode expZeroStr))).bind jsonParse =
      some (.obj [(['e', 'x', 'p'], .num 0 0)]) := by
    rw [base64UrlDecode_encode, Option.some_bind]
    exact rfl
  exact ⟨hsp, hpl, rfl,
    (C10_zero_claims toyHmac _ ['s'] {} 99999 _ _ _ _ 0 0 hsp hpl).1 rfl⟩

end Inkress
